import Mathlib

/-!
Verification of the pzip core (parallel ZIP archiver with embedded DEFLATE
encoder) against its design specification.  The definitions below are shallow
embeddings of the C++ sources (`fast_deflate.h` / `fast_deflate.cpp`,
`zip_writer.cpp`, `zip_reader.cpp`, `file_task.h` / file-task implementation).
Machine integers are modelled as `Nat`/`Int` with explicit `% 2^w` where the
source relies on wrap-around; byte sequences are `List Nat` (each element a
byte value `< 256`); fallible operations return `Except`.
-/

set_option maxRecDepth 20000
set_option maxHeartbeats 2000000

namespace Pzip

/-- Little-endian byte serialisation of the low 16 bits of `v`
(the `write16` lambda of `zip_writer.cpp`). -/
def le16 (v : Nat) : List Nat :=
  [v % 256, (v >>> 8) % 256]

/-- Little-endian byte serialisation of the low 32 bits of `v`
(the `write32` lambda of `zip_writer.cpp`). -/
def le32 (v : Nat) : List Nat :=
  [v % 256, (v >>> 8) % 256, (v >>> 16) % 256, (v >>> 24) % 256]

/-- Little-endian byte serialisation of the low 64 bits of `v`
(the `write64` lambda of `zip_writer.cpp`). -/
def le64 (v : Nat) : List Nat :=
  [v % 256, (v >>> 8) % 256, (v >>> 16) % 256, (v >>> 24) % 256,
   (v >>> 32) % 256, (v >>> 40) % 256, (v >>> 48) % 256, (v >>> 56) % 256]

/-! ## Constants from `common.h` / `file_task.h` -/

def DEFAULT_BUFFER_SIZE : Nat := 2 * 1024 * 1024
def READ_BUFFER_SIZE : Nat := 32 * 1024
def ZIP_METHOD_STORE : Nat := 0
def ZIP_METHOD_DEFLATE : Nat := 8
def ZIP_FLAG_DATA_DESCRIPTOR : Nat := 0x0008
def ZIP_UINT32_MAX : Nat := 0xFFFFFFFF
def ZIP_UINT16_MAX : Nat := 0xFFFF
def ZIP_VERSION_45 : Nat := 45

/-- Error codes of `common.h` (enum class ErrorCode). -/
inductive ErrorCode where
  | ok
  | fileNotFound
  | fileOpenError
  | fileReadError
  | fileWriteError
  | compressionError
  | decompressionError
  | invalidArchive
  | memoryError
  | cancelled
  | unknownError
deriving DecidableEq, Repr

/-! ## FileTask two-tier buffer (file-task implementation, `FileTask::write`,
`FileTask::reset`).

The in-memory buffer has fixed size `DEFAULT_BUFFER_SIZE` (allocated in the
constructor and never resized).  The overflow temp file is modelled by the
number of bytes it holds (`none` = the temp file was never created).  The
byte contents are irrelevant to the buffered-byte accounting, so a write is
modelled by its size.  File I/O is assumed to succeed (the temp-file
open-failure early return of `FileTask::write` is not modelled). -/

structure FileTaskState where
  bufferUsed : Nat
  overflow : Option Nat
  written : Nat
deriving DecidableEq, Repr

/-- State after `FileTask::reset` (also the state of a fresh task):
`bufferUsed_ = 0`, `written_ = 0`, overflow file removed. -/
def FileTaskState.resetState : FileTaskState :=
  { bufferUsed := 0, overflow := none, written := 0 }

/-- `FileTask::write(data, size)`: fill the in-memory region first; bytes that
do not fit are appended to the lazily created overflow file. -/
def FileTaskState.write (st : FileTaskState) (size : Nat) : FileTaskState :=
  let available := DEFAULT_BUFFER_SIZE - st.bufferUsed
  let toWrite := min available size
  let rest := size - toWrite
  { bufferUsed := st.bufferUsed + toWrite
    overflow := if rest > 0 then some (st.overflow.getD 0 + rest) else st.overflow
    written := st.written + size }

/-- Apply a sequence of `FileTask::write` calls. -/
def FileTaskState.writeAll (st : FileTaskState) (sizes : List Nat) : FileTaskState :=
  sizes.foldl FileTaskState.write st

/-- Total bytes held in the two tiers. -/
def FileTaskState.totalHeld (st : FileTaskState) : Nat :=
  st.bufferUsed + (st.overflow.getD 0)

theorem fileTask_write_bufferUsed (st : FileTaskState) (size : Nat) :
    (st.write size).bufferUsed = st.bufferUsed + min (DEFAULT_BUFFER_SIZE - st.bufferUsed) size := rfl

/-- Canonical two-tier buffer state after accepting `w` bytes in total. -/
def ftStateOf (w : Nat) : FileTaskState :=
  { bufferUsed := min w DEFAULT_BUFFER_SIZE
    overflow := if w ≤ DEFAULT_BUFFER_SIZE then none else some (w - DEFAULT_BUFFER_SIZE)
    written := w }

theorem ftStateOf_write (w sz : Nat) :
    (ftStateOf w).write sz = ftStateOf (w + sz) := by
  unfold ftStateOf FileTaskState.write
  simp only [FileTaskState.mk.injEq]
  refine ⟨by omega, ?_, trivial⟩
  by_cases h1 : w ≤ DEFAULT_BUFFER_SIZE
  · by_cases h2 : w + sz ≤ DEFAULT_BUFFER_SIZE
    · rw [if_neg (by omega :
        ¬ (sz - min (DEFAULT_BUFFER_SIZE - min w DEFAULT_BUFFER_SIZE) sz > 0)),
        if_pos h1, if_pos h2]
    · rw [if_pos (by omega :
        sz - min (DEFAULT_BUFFER_SIZE - min w DEFAULT_BUFFER_SIZE) sz > 0),
        if_pos h1, if_neg h2, Option.getD_none]
      exact congrArg some (by omega)
  · by_cases h3 : sz - min (DEFAULT_BUFFER_SIZE - min w DEFAULT_BUFFER_SIZE) sz > 0
    · rw [if_pos h3, if_neg h1, if_neg (by omega : ¬ (w + sz ≤ DEFAULT_BUFFER_SIZE)),
        Option.getD_some]
      exact congrArg some (by omega)
    · rw [if_neg h3, if_neg h1, if_neg (by omega : ¬ (w + sz ≤ DEFAULT_BUFFER_SIZE))]
      exact congrArg some (by omega)

theorem ftStateOf_writeAll (w : Nat) (sizes : List Nat) :
    (ftStateOf w).writeAll sizes = ftStateOf (w + sizes.sum) := by
  induction sizes generalizing w with
  | nil => simp [FileTaskState.writeAll, ftStateOf]
  | cons sz rest ih =>
      show ((ftStateOf w).write sz).writeAll rest = _
      rw [ftStateOf_write, ih]
      congr 1
      simp [List.sum_cons]
      omega

/-- Invariant shape of a state reached by writing from the reset state. -/
theorem fileTask_writeAll_spec (sizes : List Nat) :
    FileTaskState.resetState.writeAll sizes = ftStateOf sizes.sum := by
  have h0 : FileTaskState.resetState = ftStateOf 0 := by
    simp [FileTaskState.resetState, ftStateOf]
  rw [h0, ftStateOf_writeAll, Nat.zero_add]

/-- `FileTask::reset`: removes the overflow temp file and zeroes
`bufferUsed_` and `written_` (the path/stat bookkeeping it also performs has
no effect on the buffer tiers). -/
def FileTaskState.reset (_ : FileTaskState) : FileTaskState :=
  { bufferUsed := 0, overflow := none, written := 0 }

/-- C9: `FileTask::write` fills the fixed 2 MiB in-memory buffer first and the
overflow temp file only holds the bytes beyond it: after accepting a total of
at most 2 MiB no temp file exists, beyond 2 MiB the temp file holds exactly
the excess (one byte at 2 MiB + 1); `written()` always equals the total bytes
accepted across both tiers; after `reset()` no bytes remain in either tier. -/
theorem fileTask_two_tier_buffer :
    (∀ sizes : List Nat,
      (FileTaskState.resetState.writeAll sizes).written = sizes.sum ∧
      (FileTaskState.resetState.writeAll sizes).written =
        (FileTaskState.resetState.writeAll sizes).totalHeld ∧
      (sizes.sum ≤ DEFAULT_BUFFER_SIZE →
        (FileTaskState.resetState.writeAll sizes).overflow = none) ∧
      (DEFAULT_BUFFER_SIZE < sizes.sum →
        (FileTaskState.resetState.writeAll sizes).overflow =
          some (sizes.sum - DEFAULT_BUFFER_SIZE))) ∧
    (∀ st : FileTaskState,
      st.reset.totalHeld = 0 ∧ st.reset.overflow = none ∧ st.reset.written = 0) := by
  constructor
  · intro sizes
    rw [fileTask_writeAll_spec]
    refine ⟨rfl, ?_, ?_, ?_⟩
    · show sizes.sum = min sizes.sum DEFAULT_BUFFER_SIZE +
        Option.getD (if sizes.sum ≤ DEFAULT_BUFFER_SIZE then none
          else some (sizes.sum - DEFAULT_BUFFER_SIZE)) 0
      by_cases h : sizes.sum ≤ DEFAULT_BUFFER_SIZE
      · rw [if_pos h, Option.getD_none]; omega
      · rw [if_neg h, Option.getD_some]; omega
    · intro h
      show (if sizes.sum ≤ DEFAULT_BUFFER_SIZE then none
          else some (sizes.sum - DEFAULT_BUFFER_SIZE)) = none
      rw [if_pos h]
    · intro h
      show (if sizes.sum ≤ DEFAULT_BUFFER_SIZE then none
          else some (sizes.sum - DEFAULT_BUFFER_SIZE)) = some _
      rw [if_neg (by omega)]
  · intro st
    exact ⟨rfl, rfl, rfl⟩

/-- Witness for C9 at the spec's boundary inputs: a single write of exactly
2 MiB leaves no temp file; writes totalling 2 MiB + 1 put exactly one byte in
the temp file. -/
theorem fileTask_two_tier_buffer_witness :
    (FileTaskState.resetState.writeAll [DEFAULT_BUFFER_SIZE]).overflow = none ∧
    (FileTaskState.resetState.writeAll [DEFAULT_BUFFER_SIZE, 1]).overflow = some 1 := by
  constructor
  · exact (fileTask_two_tier_buffer.1 [DEFAULT_BUFFER_SIZE]).2.2.1 (by simp)
  · have h := (fileTask_two_tier_buffer.1 [DEFAULT_BUFFER_SIZE, 1]).2.2.2
      (by simp)
    simpa using h

/-! ## ZipWriter (`zip_writer.cpp`)

Byte output is modelled directly: each write_ function returns the byte
sequence it appends to the archive file.  Disk I/O is assumed to succeed
(the only error exits of the source are `!file_.good()` checks after a
write); no other error path exists in the source. -/

def LOCAL_FILE_HEADER_SIG : Nat := 0x04034b50
def DATA_DESCRIPTOR_SIG : Nat := 0x08074b50
def END_OF_CENTRAL_DIR_SIG : Nat := 0x06054b50
def ZIP64_END_OF_CENTRAL_DIR_SIG : Nat := 0x06064b50
def ZIP64_END_OF_CENTRAL_DIR_LOCATOR_SIG : Nat := 0x07064b50

/-- `ZipFileHeader` of `file_task.h`.  The name and extra field are byte
sequences; numeric fields hold the unsigned values of the C++ members. -/
structure ZipFileHeader where
  name : List Nat
  versionMadeBy : Nat := 0
  versionNeeded : Nat := 20
  flags : Nat := 0
  method : Nat := ZIP_METHOD_DEFLATE
  modTime : Nat := 0
  modDate : Nat := 0
  crc32 : Nat := 0
  compressedSize : Nat := 0
  uncompressedSize : Nat := 0
  externalAttr : Nat := 0
  extra : List Nat := []
deriving DecidableEq, Repr

/-- `ZipFileHeader::isZip64`: either size reaches `0xFFFFFFFF`. -/
def ZipFileHeader.isZip64 (h : ZipFileHeader) : Bool :=
  decide (ZIP_UINT32_MAX ≤ h.compressedSize) || decide (ZIP_UINT32_MAX ≤ h.uncompressedSize)

/-- `header.flags & ZIP_FLAG_DATA_DESCRIPTOR` is non-zero. -/
def ZipFileHeader.hasDataDescriptor (h : ZipFileHeader) : Bool :=
  decide (h.flags &&& ZIP_FLAG_DATA_DESCRIPTOR ≠ 0)

/-- `ZipWriter::writeLocalFileHeader`: the byte sequence written for the
local file header. -/
def writeLocalFileHeader (h : ZipFileHeader) : List Nat :=
  le32 LOCAL_FILE_HEADER_SIG ++
  le16 (if h.isZip64 then ZIP_VERSION_45 else h.versionNeeded) ++
  le16 h.flags ++
  le16 h.method ++
  le16 h.modTime ++
  le16 h.modDate ++
  (if h.hasDataDescriptor then le32 0 else le32 h.crc32) ++
  (if h.hasDataDescriptor then le32 0
   else if h.isZip64 then le32 ZIP_UINT32_MAX
   else le32 h.compressedSize) ++
  (if h.hasDataDescriptor then le32 0
   else if h.isZip64 then le32 ZIP_UINT32_MAX
   else le32 h.uncompressedSize) ++
  le16 h.name.length ++
  le16 h.extra.length ++
  h.name ++
  h.extra

/-- `ZipWriter::writeDataDescriptor`: the byte sequence of the trailing data
descriptor (24 bytes when ZIP64, else 16). -/
def writeDataDescriptor (h : ZipFileHeader) : List Nat :=
  le32 DATA_DESCRIPTOR_SIG ++
  le32 h.crc32 ++
  (if h.isZip64 then le64 h.compressedSize ++ le64 h.uncompressedSize
   else le32 h.compressedSize ++ le32 h.uncompressedSize)

/-- `ZipWriter::createRaw`: local file header, then the provider's bytes,
then - iff the data-descriptor flag is set - the data descriptor. -/
def createRaw (h : ZipFileHeader) (data : List Nat) : List Nat :=
  writeLocalFileHeader h ++ data ++
  (if h.hasDataDescriptor then writeDataDescriptor h else [])

/-- `ZipWriter::writeEndOfCentralDirectory`: classic 22-byte EOCD (preceded
by the ZIP64 EOCD record and locator when any field saturates), with the
archive comment appended verbatim.  `records` is `centralDir_.size()`,
`eocdOffset` is the file offset at which this record is being written
(`currentOffset_`, i.e. the end of the central directory). -/
def writeEndOfCentralDirectory (records cdSize cdOffset eocdOffset : Nat)
    (comment : List Nat) : List Nat :=
  let needZip64 := ZIP_UINT16_MAX ≤ records ∨ ZIP_UINT32_MAX ≤ cdSize ∨
    ZIP_UINT32_MAX ≤ cdOffset
  let zip64Part :=
    le32 ZIP64_END_OF_CENTRAL_DIR_SIG ++ le64 44 ++
    le16 ZIP_VERSION_45 ++ le16 ZIP_VERSION_45 ++
    le32 0 ++ le32 0 ++ le64 records ++ le64 records ++
    le64 cdSize ++ le64 cdOffset ++
    le32 ZIP64_END_OF_CENTRAL_DIR_LOCATOR_SIG ++ le32 0 ++
    le64 eocdOffset ++ le32 1
  let recs := if needZip64 then ZIP_UINT16_MAX else records
  let size := if needZip64 then ZIP_UINT32_MAX else cdSize
  let offset := if needZip64 then ZIP_UINT32_MAX else cdOffset
  (if needZip64 then zip64Part else []) ++
  le32 END_OF_CENTRAL_DIR_SIG ++ le16 0 ++ le16 0 ++
  le16 recs ++ le16 recs ++ le32 size ++ le32 offset ++
  le16 comment.length ++ comment

/-- C4: `createRaw` writes a 30-byte fixed local-header prefix followed by
the name and extra field; the CRC field and both size fields are 0 when the
data-descriptor flag (bit 3) is set, the size fields are `0xFFFFFFFF` when
`isZip64()`, and the real 32-bit values otherwise; version-needed is 45 when
`isZip64()`; and a data descriptor of exactly 16 bytes (24 when ZIP64)
starting with the signature `0x08074b50` and carrying the real CRC and sizes
follows the member data iff bit 3 is set. -/
theorem zipWriter_createRaw_layout (h : ZipFileHeader) (data : List Nat) :
    (writeLocalFileHeader h).length = 30 + h.name.length + h.extra.length ∧
    (writeLocalFileHeader h).take 4 = le32 LOCAL_FILE_HEADER_SIG ∧
    ((writeLocalFileHeader h).drop 4).take 2 =
      le16 (if h.isZip64 then ZIP_VERSION_45 else h.versionNeeded) ∧
    ((writeLocalFileHeader h).drop 14).take 4 =
      (if h.hasDataDescriptor then le32 0 else le32 h.crc32) ∧
    ((writeLocalFileHeader h).drop 18).take 4 =
      (if h.hasDataDescriptor then le32 0
       else if h.isZip64 then le32 ZIP_UINT32_MAX else le32 h.compressedSize) ∧
    ((writeLocalFileHeader h).drop 22).take 4 =
      (if h.hasDataDescriptor then le32 0
       else if h.isZip64 then le32 ZIP_UINT32_MAX else le32 h.uncompressedSize) ∧
    (writeLocalFileHeader h).drop 30 = h.name ++ h.extra ∧
    createRaw h data = writeLocalFileHeader h ++ data ++
      (if h.hasDataDescriptor then writeDataDescriptor h else []) ∧
    (writeDataDescriptor h).length = (if h.isZip64 then 24 else 16) ∧
    (writeDataDescriptor h).take 4 = le32 DATA_DESCRIPTOR_SIG ∧
    (writeDataDescriptor h).drop 4 = le32 h.crc32 ++
      (if h.isZip64 then le64 h.compressedSize ++ le64 h.uncompressedSize
       else le32 h.compressedSize ++ le32 h.uncompressedSize) := by
  refine ⟨?_, ?_, ?_, ?_, ?_, ?_, ?_, rfl, ?_, ?_, ?_⟩ <;>
    · cases hdd : h.hasDataDescriptor <;> cases hz : h.isZip64 <;>
        simp [writeLocalFileHeader, writeDataDescriptor, le16, le32, le64, hdd, hz] <;>
        omega

theorem lfh_nameLen_field (h : ZipFileHeader) :
    ((writeLocalFileHeader h).drop 26).take 2 =
      [h.name.length % 256, (h.name.length >>> 8) % 256] := by
  cases hdd : h.hasDataDescriptor <;> cases hz : h.isZip64 <;>
    simp [writeLocalFileHeader, le16, le32, hdd, hz]

theorem lfh_length_eq (h : ZipFileHeader) :
    (writeLocalFileHeader h).length = 30 + h.name.length + h.extra.length := by
  cases hdd : h.hasDataDescriptor <;> cases hz : h.isZip64 <;>
    simp [writeLocalFileHeader, le16, le32, hdd, hz] <;> omega

theorem lfh_drop30 (h : ZipFileHeader) :
    (writeLocalFileHeader h).drop 30 = h.name ++ h.extra := by
  cases hdd : h.hasDataDescriptor <;> cases hz : h.isZip64 <;>
    simp [writeLocalFileHeader, le16, le32, hdd, hz]

theorem eocd_length_eq (records cdSize cdOffset eocdOffset : Nat) (comment : List Nat) :
    (writeEndOfCentralDirectory records cdSize cdOffset eocdOffset comment).length =
      (if ZIP_UINT16_MAX ≤ records ∨ ZIP_UINT32_MAX ≤ cdSize ∨
          ZIP_UINT32_MAX ≤ cdOffset then 76 else 0) + 22 + comment.length := by
  by_cases hz : ZIP_UINT16_MAX ≤ records ∨ ZIP_UINT32_MAX ≤ cdSize ∨
      ZIP_UINT32_MAX ≤ cdOffset <;>
    simp [writeEndOfCentralDirectory, le16, le32, le64, hz] <;> omega

theorem eocd_comment_field (records cdSize cdOffset eocdOffset : Nat) (comment : List Nat) :
    (writeEndOfCentralDirectory records cdSize cdOffset eocdOffset comment).drop
        ((if ZIP_UINT16_MAX ≤ records ∨ ZIP_UINT32_MAX ≤ cdSize ∨
            ZIP_UINT32_MAX ≤ cdOffset then 76 else 0) + 20) =
      [comment.length % 256, (comment.length >>> 8) % 256] ++ comment := by
  by_cases hz : ZIP_UINT16_MAX ≤ records ∨ ZIP_UINT32_MAX ≤ cdSize ∨
      ZIP_UINT32_MAX ≤ cdOffset <;>
    simp [writeEndOfCentralDirectory, le16, le32, le64, hz]

/-- A 65 536-byte member name (one byte longer than the 16-bit maximum). -/
def oversizeName : List Nat := List.replicate 65536 97

theorem oversizeName_length : oversizeName.length = 65536 := by
  rw [oversizeName]
  exact List.length_replicate _ _

/-- A header whose member name exceeds the 16-bit length limit. -/
def oversizeHeader : ZipFileHeader := { name := oversizeName }

/-- C5 counterexample: passing a 65 536-byte member name to `createRaw` does
not fail; the local file header is written anyway, with the 16-bit
name-length field wrapped to 0 (a malformed record), the full name bytes
following.  Likewise a 65 536-byte archive comment at `close()` is written
with a comment-length field of 0. -/
theorem zipWriter_oversize_name_no_error :
    ((writeLocalFileHeader oversizeHeader).drop 26).take 2 = [0, 0] ∧
    (writeLocalFileHeader oversizeHeader).length = 30 + 65536 ∧
    (writeLocalFileHeader oversizeHeader).drop 30 = oversizeName ∧
    ((writeEndOfCentralDirectory 0 0 0 0 oversizeName).drop 20).take 2 = [0, 0] ∧
    (writeEndOfCentralDirectory 0 0 0 0 oversizeName).length = 22 + 65536 := by
  refine ⟨?_, ?_, ?_, ?_, ?_⟩
  · rw [lfh_nameLen_field]
    show [oversizeHeader.name.length % 256,
      (oversizeHeader.name.length >>> 8) % 256] = [0, 0]
    rw [show oversizeHeader.name = oversizeName from rfl,
      oversizeName_length]
    decide
  · rw [lfh_length_eq,
      show oversizeHeader.name = oversizeName from rfl,
      show oversizeHeader.extra = [] from rfl,
      oversizeName_length, List.length_nil]
  · rw [lfh_drop30,
      show oversizeHeader.name = oversizeName from rfl,
      show oversizeHeader.extra = [] from rfl,
      List.append_nil]
  · have h := eocd_comment_field 0 0 0 0 oversizeName
    rw [if_neg (by simp [ZIP_UINT16_MAX, ZIP_UINT32_MAX]), Nat.zero_add] at h
    rw [h, oversizeName_length]
    rfl
  · rw [eocd_length_eq, oversizeName_length,
      if_neg (by simp [ZIP_UINT16_MAX, ZIP_UINT32_MAX])]

/-- C5 amended: `ZipWriter` performs no length validation.  For any header,
`createRaw` writes the record with the 16-bit name-length field equal to
`name.size % 2^16`, and `close()` writes the classic EOCD with the 16-bit
comment-length field equal to `comment.size % 2^16` and the comment bytes
appended verbatim; no error is returned for over-long names or comments. -/
theorem zipWriter_length_fields_wrap (h : ZipFileHeader) (data : List Nat)
    (records cdSize cdOffset eocdOffset : Nat) (comment : List Nat) :
    ((writeLocalFileHeader h).drop 26).take 2 =
      [h.name.length % 256, (h.name.length >>> 8) % 256] ∧
    (createRaw h data).take (writeLocalFileHeader h).length = writeLocalFileHeader h ∧
    ((writeEndOfCentralDirectory records cdSize cdOffset eocdOffset comment).drop
        ((if ZIP_UINT16_MAX ≤ records ∨ ZIP_UINT32_MAX ≤ cdSize ∨
            ZIP_UINT32_MAX ≤ cdOffset then 76 else 0) + 20)) =
      [comment.length % 256, (comment.length >>> 8) % 256] ++ comment := by
  refine ⟨lfh_nameLen_field h, ?_, eocd_comment_field _ _ _ _ _⟩
  simp [createRaw]

/-! ## ZipReader (`zip_reader.cpp`)

The archive file is a byte list.  The CRC32 primitive and the `inflate`
routine are external libraries (zlib); they enter the model as function
parameters: `crc : List Nat → Nat` and
`inflate : List Nat → Nat → Option (List Nat)` (input bytes and output
capacity; `none` models every way `inflate` can fail to reach
`Z_STREAM_END`, including `inflateInit2` failure). -/

/-- Byte `i` of a byte list (0 beyond the end, matching a C++ buffer read
that the source keeps in bounds). -/
def byteAt (buf : List Nat) (i : Nat) : Nat := buf.getD i 0

/-- The end-of-central-directory signature `50 4b 05 06` occurs at offset
`i` of `buf`. -/
def eocdSigAt (buf : List Nat) (i : Nat) : Bool :=
  byteAt buf i == 0x50 && byteAt buf (i+1) == 0x4b &&
  byteAt buf (i+2) == 0x05 && byteAt buf (i+3) == 0x06

/-- The backward scan of `ZipReader::readEndOfCentralDirectory`
(`for (int64_t i = maxSearch - 22; i >= 0; --i)`): highest offset `≤ start`
at which the signature occurs. -/
def findEocdSig (buf : List Nat) : Nat → Option Nat
  | 0 => if eocdSigAt buf 0 then some 0 else none
  | i + 1 => if eocdSigAt buf (i+1) then some (i+1) else findEocdSig buf i

/-- Fields parsed from the classic EOCD record. -/
structure EocdInfo where
  totalEntries : Nat
  centralDirSize : Nat
  centralDirOffset : Nat
deriving DecidableEq, Repr

/-- Two-byte little-endian read (`read16` of `zip_reader.cpp`). -/
def rd16 (buf : List Nat) (o : Nat) : Nat :=
  byteAt buf o + (byteAt buf (o+1)) * 256

/-- Four-byte little-endian read (`read32` of `zip_reader.cpp`). -/
def rd32 (buf : List Nat) (o : Nat) : Nat :=
  byteAt buf o + (byteAt buf (o+1)) * 256 + (byteAt buf (o+2)) * 65536 +
  (byteAt buf (o+3)) * 16777216

/-- `ZipReader::readEndOfCentralDirectory`: read the last
`min(fileSize, 65536 + 22)` bytes, scan backward from `maxSearch - 22` for
the EOCD signature, parse the record; `INVALID_ARCHIVE` when the signature
is not found (when `maxSearch < 22` the loop index starts negative and the
loop never runs). -/
def readEndOfCentralDirectory (file : List Nat) : Except ErrorCode EocdInfo :=
  let fileSize := file.length
  let maxSearch := min fileSize (65536 + 22)
  let buf := file.drop (fileSize - maxSearch)
  if maxSearch < 22 then .error .invalidArchive
  else
    match findEocdSig buf (maxSearch - 22) with
    | none => .error .invalidArchive
    | some sigOffset =>
        .ok { totalEntries := rd16 buf (sigOffset + 10)
              centralDirSize := rd32 buf (sigOffset + 12)
              centralDirOffset := rd32 buf (sigOffset + 16) }

theorem findEocdSig_eq_none (buf : List Nat) (start : Nat)
    (h : ∀ i, i ≤ start → eocdSigAt buf i = false) :
    findEocdSig buf start = none := by
  induction start with
  | zero => simp [findEocdSig, h 0 (Nat.le_refl 0)]
  | succ n ih =>
      simp only [findEocdSig, h (n+1) (Nat.le_refl _), if_false, Bool.false_eq_true]
      exact ih (fun i hi => h i (Nat.le_succ_of_le hi))

theorem findEocdSig_zero_of (buf : List Nat) (start : Nat)
    (h0 : eocdSigAt buf 0 = true)
    (h : ∀ i, 1 ≤ i → i ≤ start → eocdSigAt buf i = false) :
    findEocdSig buf start = some 0 := by
  induction start with
  | zero => simp [findEocdSig, h0]
  | succ n ih =>
      simp only [findEocdSig, h (n+1) (Nat.le_add_left _ _) (Nat.le_refl _), if_false,
        Bool.false_eq_true]
      exact ih (fun i h1 h2 => h i h1 (Nat.le_succ_of_le h2))

theorem findEocdSig_isSome_of (buf : List Nat) (start j : Nat)
    (hj : j ≤ start) (h : eocdSigAt buf j = true) :
    (findEocdSig buf start).isSome = true := by
  induction start with
  | zero =>
      have : j = 0 := Nat.le_zero.mp hj
      subst this
      simp [findEocdSig, h]
  | succ n ih =>
      by_cases hs : eocdSigAt buf (n+1) = true
      · simp [findEocdSig, hs]
      · simp only [findEocdSig, hs, if_false, Bool.false_eq_true]
        rcases Nat.lt_or_ge j (n+1) with hlt | hge
        · exact ih (Nat.lt_succ_iff.mp hlt)
        · exact absurd (Nat.le_antisymm hj hge ▸ h) hs

theorem findEocdSig_sig_of_some (buf : List Nat) (start j : Nat)
    (h : findEocdSig buf start = some j) : eocdSigAt buf j = true := by
  induction start with
  | zero =>
      by_cases hs : eocdSigAt buf 0 = true
      · simp only [findEocdSig, hs, if_true, Option.some.injEq] at h
        exact h ▸ hs
      · simp [findEocdSig, hs] at h
  | succ n ih =>
      by_cases hs : eocdSigAt buf (n+1) = true
      · simp only [findEocdSig, hs, if_true, Option.some.injEq] at h
        exact h ▸ hs
      · simp only [findEocdSig, hs, if_false, Bool.false_eq_true] at h
        exact ih h

/-- C6 amended: on open, the reader scans backward over exactly the last
`min(file-size, 65 558)` bytes (the source uses `65536 + 22`, not
`65 535 + 22`), and returns the invalid-archive error exactly when no EOCD
signature occurs at an offset `≤ maxSearch − 22` of that window (a file
shorter than 22 bytes always yields the error). -/
theorem reader_eocd_scan_range (file : List Nat) :
    (min file.length 65558 < 22 →
      readEndOfCentralDirectory file = .error .invalidArchive) ∧
    (22 ≤ min file.length 65558 →
      (readEndOfCentralDirectory file = .error .invalidArchive ↔
        ∀ i, i ≤ min file.length 65558 - 22 →
          eocdSigAt (file.drop (file.length - min file.length 65558)) i = false)) := by
  constructor
  · intro h
    simp only [readEndOfCentralDirectory]
    rw [if_pos (by omega)]
  · intro h
    simp only [readEndOfCentralDirectory]
    rw [if_neg (by omega)]
    constructor
    · intro herr i hi
      by_contra hc
      have hsig : eocdSigAt (file.drop (file.length - min file.length 65558)) i = true := by
        revert hc
        cases eocdSigAt (file.drop (file.length - min file.length 65558)) i <;> simp
      have := findEocdSig_isSome_of _ (min file.length 65558 - 22) i hi hsig
      rcases hopt : findEocdSig (file.drop (file.length - min file.length 65558))
          (min file.length 65558 - 22) with _ | j
      · rw [hopt] at this
        simp at this
      · rw [hopt] at herr
        simp at herr
    · intro hall
      rw [findEocdSig_eq_none _ _ hall]

theorem byteAt_replicate_zero (n j : Nat) : byteAt (List.replicate n 0) j = 0 := by
  unfold byteAt
  rcases Nat.lt_or_ge j n with h | h
  · rw [List.getD_eq_getElem _ _ (by simpa using h), List.getElem_replicate]
  · rw [List.getD_eq_default _ _ (by simpa using h)]

/-- C6 witness input: 30 zero bytes contain no EOCD signature. -/
theorem reader_eocd_scan_range_witness :
    readEndOfCentralDirectory (List.replicate 30 0) = .error .invalidArchive := by
  have h := (reader_eocd_scan_range (List.replicate 30 0)).2
  rw [List.length_replicate] at h
  refine (h (by norm_num)).mpr ?_
  intro i _
  have hdrop : (30 : Nat) - min 30 65558 = 0 := by norm_num
  rw [hdrop, List.drop_zero]
  simp only [eocdSigAt, byteAt_replicate_zero]
  rfl

/-- A 65 558-byte archive whose only EOCD signature starts at offset 0:
inside the last 65 558 bytes (the code's window) but outside the last
65 557 bytes (the window the spec describes). -/
def eocdBoundaryFile : List Nat := [0x50, 0x4b, 0x05, 0x06] ++ List.replicate 65554 0

theorem eocdBoundaryFile_length : eocdBoundaryFile.length = 65558 := by
  rw [eocdBoundaryFile, List.length_append, List.length_replicate]
  rfl

theorem byteAt_append_right (l1 l2 : List Nat) (j : Nat) :
    byteAt (l1 ++ l2) (l1.length + j) = byteAt l2 j := by
  unfold byteAt
  induction l1 with
  | nil => simp
  | cons a t ih => simpa [List.getD_cons_succ, Nat.succ_add] using ih

theorem eocdBoundaryFile_byteAt_ge4 (j : Nat) (h : 4 ≤ j) :
    byteAt eocdBoundaryFile j = 0 := by
  obtain ⟨k, rfl⟩ : ∃ k, j = 4 + k := ⟨j - 4, by omega⟩
  rw [eocdBoundaryFile]
  have := byteAt_append_right [0x50, 0x4b, 0x05, 0x06] (List.replicate 65554 0) k
  rw [byteAt_replicate_zero] at this
  exact this

theorem eocdBoundaryFile_sigAt_false (i : Nat) (h : 1 ≤ i) :
    eocdSigAt eocdBoundaryFile i = false := by
  match i, h with
  | 1, _ => rfl
  | 2, _ => rfl
  | 3, _ => rfl
  | (k+4), _ =>
      unfold eocdSigAt
      rw [eocdBoundaryFile_byteAt_ge4 (k+4) (by omega)]
      rfl

/-- C6 counterexample: on `eocdBoundaryFile` the reader succeeds, yet no
EOCD signature occurs anywhere in the last `min(file-size, 65 557)` bytes -
the code's backward scan covers `min(file-size, 65 558)` bytes, one more
than the claim states. -/
theorem reader_eocd_scan_beyond_claimed_range :
    (readEndOfCentralDirectory eocdBoundaryFile).isOk = true ∧
    eocdBoundaryFile.length = 65558 ∧
    (∀ i, i ≤ 65557 - 22 →
      eocdSigAt (eocdBoundaryFile.drop (eocdBoundaryFile.length - 65557)) i = false) := by
  refine ⟨?_, eocdBoundaryFile_length, ?_⟩
  · show (let fileSize := eocdBoundaryFile.length
      let maxSearch := min fileSize (65536 + 22)
      let buf := eocdBoundaryFile.drop (fileSize - maxSearch)
      if maxSearch < 22 then (.error .invalidArchive : Except ErrorCode EocdInfo)
      else
        match findEocdSig buf (maxSearch - 22) with
        | none => .error .invalidArchive
        | some sigOffset =>
            .ok { totalEntries := rd16 buf (sigOffset + 10)
                  centralDirSize := rd32 buf (sigOffset + 12)
                  centralDirOffset := rd32 buf (sigOffset + 16) }).isOk = true
    simp only [eocdBoundaryFile_length]
    rw [show min 65558 (65536 + 22) = 65558 from rfl]
    rw [if_neg (by omega)]
    rw [show (65558 : Nat) - 65558 = 0 from rfl, List.drop_zero]
    rw [findEocdSig_zero_of eocdBoundaryFile (65558 - 22) (by rfl)
      (fun i h1 _ => eocdBoundaryFile_sigAt_false i h1)]
    rfl
  · intro i hi
    rw [eocdBoundaryFile_length]
    rw [show (65558 : Nat) - 65557 = 1 from rfl]
    rw [show eocdBoundaryFile.drop 1 = [0x4b, 0x05, 0x06] ++ List.replicate 65554 0 from rfl]
    match i with
    | 0 => rfl
    | 1 => rfl
    | 2 => rfl
    | (k+3) =>
        unfold eocdSigAt
        have h4 : byteAt ([0x4b, 0x05, 0x06] ++ List.replicate 65554 0) (k+3) = 0 := by
          have := byteAt_append_right [0x4b, 0x05, 0x06] (List.replicate 65554 0) k
          rw [byteAt_replicate_zero] at this
          have e : (3 : Nat) + k = k + 3 := by omega
          rw [show ([0x4b, 0x05, 0x06] : List Nat).length = 3 from rfl, e] at this
          exact this
        rw [h4]
        rfl

/-- Read-side entry (`ZipEntry` of `zip_reader.h`): header plus the file
offset of the member's data. -/
structure ZipEntry where
  header : ZipFileHeader
  dataOffset : Nat
  localHeaderOffset : Nat := 0
deriving DecidableEq, Repr

/-- A name ending in `/` marks a directory entry
(`ZipFileHeader::isDirectory`). -/
def ZipFileHeader.isDirectory (h : ZipFileHeader) : Bool :=
  decide (h.name ≠ []) && (h.name.getLast? == some 47)

def ZipEntry.isDirectory (e : ZipEntry) : Bool := e.header.isDirectory

/-- `ZipReader::readCompressed`: seek to `dataOffset` and read
`compressedSize` bytes; a short read is a `FILE_READ_ERROR`. -/
def readCompressed (file : List Nat) (e : ZipEntry) : Except ErrorCode (List Nat) :=
  if e.dataOffset + e.header.compressedSize ≤ file.length then
    .ok ((file.drop e.dataOffset).take e.header.compressedSize)
  else .error .fileReadError

/-- `ZipReader::readDecompressed`.  `crc` is the external CRC32 primitive
(zlib, via `utils::crc32`); `inflate input capacity` is the external raw
inflate, `none` standing for any outcome other than `Z_STREAM_END`
(including `inflateInit2` failure). -/
def readDecompressed (crc : List Nat → Nat)
    (inflate : List Nat → Nat → Option (List Nat))
    (file : List Nat) (e : ZipEntry) : Except ErrorCode (List Nat) :=
  if e.header.method = ZIP_METHOD_STORE then readCompressed file e
  else if e.header.method ≠ ZIP_METHOD_DEFLATE then .error .decompressionError
  else
    match readCompressed file e with
    | .error err => .error err
    | .ok compressed =>
        match inflate compressed e.header.uncompressedSize with
        | none => .error .decompressionError
        | some buffer =>
            if crc buffer ≠ e.header.crc32 then .error .decompressionError
            else .ok buffer

/-- `ZipReader::extractTo` for a non-directory entry, modelled by the
contents the destination file ends up with: `none` when no file is produced
(the error return happens before the output file is opened). -/
def extractTo (crc : List Nat → Nat)
    (inflate : List Nat → Nat → Option (List Nat))
    (file : List Nat) (e : ZipEntry) : Option (List Nat) :=
  if e.isDirectory then none
  else
    match readDecompressed crc inflate file e with
    | .error _ => none
    | .ok data => some data

/-- C7: `readDecompressed` returns the raw stored bytes when the method is
STORE (0); returns a decompression error for every method other than STORE
and DEFLATE (8); for DEFLATE it returns a decompression error whenever the
stream does not inflate to completion or the CRC32 of the inflated bytes
differs from the header CRC; and on any error `extractTo` produces no
destination-file contents. -/
theorem reader_decompress_error_paths (crc : List Nat → Nat)
    (inflate : List Nat → Nat → Option (List Nat))
    (file : List Nat) (e : ZipEntry) :
    (e.header.method = ZIP_METHOD_STORE →
      readDecompressed crc inflate file e = readCompressed file e) ∧
    (e.header.method ≠ ZIP_METHOD_STORE → e.header.method ≠ ZIP_METHOD_DEFLATE →
      readDecompressed crc inflate file e = .error .decompressionError) ∧
    (∀ compressed, e.header.method = ZIP_METHOD_DEFLATE →
      readCompressed file e = .ok compressed →
      inflate compressed e.header.uncompressedSize = none →
      readDecompressed crc inflate file e = .error .decompressionError) ∧
    (∀ compressed buffer, e.header.method = ZIP_METHOD_DEFLATE →
      readCompressed file e = .ok compressed →
      inflate compressed e.header.uncompressedSize = some buffer →
      crc buffer ≠ e.header.crc32 →
      readDecompressed crc inflate file e = .error .decompressionError) ∧
    (∀ err, readDecompressed crc inflate file e = .error err →
      extractTo crc inflate file e = none) := by
  refine ⟨?_, ?_, ?_, ?_, ?_⟩
  · intro h
    unfold readDecompressed
    rw [if_pos h]
  · intro h1 h2
    unfold readDecompressed
    rw [if_neg h1, if_pos h2]
  · intro compressed hm hrc hinf
    unfold readDecompressed
    rw [if_neg (by rw [hm]; decide), if_neg (by rw [hm]; simp), hrc]
    show (match inflate compressed e.header.uncompressedSize with
      | none => (.error .decompressionError : Except ErrorCode (List Nat))
      | some buffer =>
          if crc buffer ≠ e.header.crc32 then .error .decompressionError
          else .ok buffer) = .error .decompressionError
    rw [hinf]
  · intro compressed buffer hm hrc hinf hcrc
    unfold readDecompressed
    rw [if_neg (by rw [hm]; decide), if_neg (by rw [hm]; simp), hrc]
    show (match inflate compressed e.header.uncompressedSize with
      | none => (.error .decompressionError : Except ErrorCode (List Nat))
      | some buffer =>
          if crc buffer ≠ e.header.crc32 then .error .decompressionError
          else .ok buffer) = .error .decompressionError
    rw [hinf]
    show (if crc buffer ≠ e.header.crc32 then (.error .decompressionError : Except ErrorCode (List Nat))
      else .ok buffer) = .error .decompressionError
    rw [if_pos hcrc]
  · intro err herr
    unfold extractTo
    by_cases hd : e.isDirectory
    · rw [if_pos hd]
    · rw [if_neg hd, herr]

/-- Witness for C7: a one-byte STORE member is returned raw; method 99 is
rejected; a DEFLATE member whose stream does not inflate, or whose inflated
bytes mismatch the header CRC, errors - and in the error cases `extractTo`
writes nothing. -/
theorem reader_decompress_error_paths_witness :
    readDecompressed (fun _ => 0) (fun _ _ => none) [7]
      { header := { name := [97], method := ZIP_METHOD_STORE, compressedSize := 1 },
        dataOffset := 0 } = .ok [7] ∧
    readDecompressed (fun _ => 0) (fun _ _ => none) [7]
      { header := { name := [97], method := 99, compressedSize := 1 },
        dataOffset := 0 } = .error .decompressionError ∧
    readDecompressed (fun _ => 0) (fun _ _ => none) [7]
      { header := { name := [97], method := ZIP_METHOD_DEFLATE, compressedSize := 1 },
        dataOffset := 0 } = .error .decompressionError ∧
    readDecompressed (fun _ => 0) (fun _ _ => some [5]) [7]
      { header := { name := [97], method := ZIP_METHOD_DEFLATE, compressedSize := 1,
                    crc32 := 12345 },
        dataOffset := 0 } = .error .decompressionError ∧
    extractTo (fun _ => 0) (fun _ _ => none) [7]
      { header := { name := [97], method := ZIP_METHOD_DEFLATE, compressedSize := 1 },
        dataOffset := 0 } = none := by
  refine ⟨?_, ?_, ?_, ?_, ?_⟩
  · have h := (reader_decompress_error_paths (fun _ => 0) (fun _ _ => none) [7]
      { header := { name := [97], method := ZIP_METHOD_STORE, compressedSize := 1 },
        dataOffset := 0 }).1 rfl
    rw [h]
    rfl
  · exact (reader_decompress_error_paths (fun _ => 0) (fun _ _ => none) [7]
      { header := { name := [97], method := 99, compressedSize := 1 },
        dataOffset := 0 }).2.1 (by decide) (by decide)
  · exact (reader_decompress_error_paths (fun _ => 0) (fun _ _ => none) [7]
      { header := { name := [97], method := ZIP_METHOD_DEFLATE, compressedSize := 1 },
        dataOffset := 0 }).2.2.1 [7] rfl rfl rfl
  · exact (reader_decompress_error_paths (fun _ => 0) (fun _ _ => some [5]) [7]
      { header := { name := [97], method := ZIP_METHOD_DEFLATE, compressedSize := 1,
                    crc32 := 12345 },
        dataOffset := 0 }).2.2.2.1 [7] [5] rfl rfl rfl (by decide)
  · exact (reader_decompress_error_paths (fun _ => 0) (fun _ _ => none) [7]
      { header := { name := [97], method := ZIP_METHOD_DEFLATE, compressedSize := 1 },
        dataOffset := 0 }).2.2.2.2 .decompressionError
      (((reader_decompress_error_paths (fun _ => 0) (fun _ _ => none) [7]
        { header := { name := [97], method := ZIP_METHOD_DEFLATE, compressedSize := 1 },
          dataOffset := 0 }).2.2.1) [7] rfl rfl rfl)

/-- C10: for a STORE entry, `readDecompressed` (and hence `extractTo`)
returns the stored bytes without any CRC32 verification: the result does not
depend on the CRC function or on the header's CRC field, so a STORE member
whose data does not match its header CRC is read and extracted without
error. -/
theorem reader_store_skips_crc (crc crc' : List Nat → Nat)
    (inflate inflate' : List Nat → Nat → Option (List Nat))
    (file : List Nat) (e : ZipEntry) (c : Nat) :
    (e.header.method = ZIP_METHOD_STORE →
      readDecompressed crc inflate file e =
        readDecompressed crc' inflate' file
          { e with header := { e.header with crc32 := c } } ∧
      (e.dataOffset + e.header.compressedSize ≤ file.length →
        readDecompressed crc inflate file e =
          .ok ((file.drop e.dataOffset).take e.header.compressedSize)) ∧
      (e.isDirectory = false →
        e.dataOffset + e.header.compressedSize ≤ file.length →
        extractTo crc inflate file e =
          some ((file.drop e.dataOffset).take e.header.compressedSize))) := by
  intro hm
  have hm' : ({ e with header := { e.header with crc32 := c } } : ZipEntry).header.method
      = ZIP_METHOD_STORE := hm
  have h1 : readDecompressed crc inflate file e = readCompressed file e := by
    unfold readDecompressed
    rw [if_pos hm]
  have h2 : readDecompressed crc' inflate' file
      { e with header := { e.header with crc32 := c } } =
      readCompressed file { e with header := { e.header with crc32 := c } } := by
    unfold readDecompressed
    rw [if_pos hm']
  have h3 : readCompressed file { e with header := { e.header with crc32 := c } } =
      readCompressed file e := rfl
  refine ⟨by rw [h1, h2, h3], ?_, ?_⟩
  · intro hin
    rw [h1]
    unfold readCompressed
    rw [if_pos hin]
  · intro hd hin
    unfold extractTo
    rw [if_neg (by rw [hd]; simp), h1]
    unfold readCompressed
    rw [if_pos hin]

/-- Witness for C10: a STORE member whose single stored byte 7 has a header
CRC field (12345) that cannot match any CRC of the content is still read
and extracted successfully, for an arbitrary CRC function (here constantly
0, so the mismatch is real: crc [7] = 0 ≠ 12345). -/
theorem reader_store_skips_crc_witness :
    readDecompressed (fun _ => 0) (fun _ _ => none) [7]
      { header := { name := [97], method := ZIP_METHOD_STORE, compressedSize := 1,
                    crc32 := 12345 },
        dataOffset := 0 } = .ok [7] ∧
    extractTo (fun _ => 0) (fun _ _ => none) [7]
      { header := { name := [97], method := ZIP_METHOD_STORE, compressedSize := 1,
                    crc32 := 12345 },
        dataOffset := 0 } = some [7] := by
  have h := reader_store_skips_crc (fun _ => 0) (fun _ => 0) (fun _ _ => none)
    (fun _ _ => none) [7]
    { header := { name := [97], method := ZIP_METHOD_STORE, compressedSize := 1,
                  crc32 := 12345 },
      dataOffset := 0 } 12345 rfl
  constructor
  · have := h.2.1 (by decide)
    rw [this]
    rfl
  · have := h.2.2 (by decide) (by decide)
    rw [this]
    rfl

/-! ## DEFLATE encoder (`fast_deflate.h` / `fast_deflate.cpp`)

Constants and static tables, transcribed from the source. -/

def TABLE_BITS : Nat := 15
def TABLE_SIZE : Nat := 1 <<< TABLE_BITS
def TABLE_SHIFT : Nat := 32 - TABLE_BITS
def BASE_MATCH_LENGTH : Nat := 3
def MAX_MATCH_LENGTH : Nat := 258
def MAX_MATCH_OFFSET : Int := 1 <<< 15
def MAX_STORE_BLOCK_SIZE : Nat := 65535
def ALLOC_HISTORY : Nat := MAX_STORE_BLOCK_SIZE * 5
def PRIME_4_BYTES : Nat := 2654435761
def PRIME_5_BYTES : Nat := 889523592379
def PRIME_7_BYTES : Nat := 58295818150454627
def OFFSET_CODE_COUNT : Nat := 30
def END_BLOCK_MARKER : Nat := 256
def LENGTH_CODES_START : Nat := 257
def LITERAL_COUNT : Nat := 286
def BUFFER_FLUSH_SIZE : Nat := 246
def LENGTH_SHIFT : Nat := 22
def OFFSET_MASK : Nat := (1 <<< LENGTH_SHIFT) - 1
def MATCH_TYPE : Nat := 1 <<< 30

/-- `lengthCodes1` table of `fast_deflate.h` (value-for-value; the runs of
equal codes are written with `List.replicate`). -/
def lengthCodes1 : List Nat :=
  [1, 2, 3, 4, 5, 6, 7, 8] ++
  List.replicate 2 9 ++ List.replicate 2 10 ++
  List.replicate 2 11 ++ List.replicate 2 12 ++
  List.replicate 4 13 ++ List.replicate 4 14 ++
  List.replicate 4 15 ++ List.replicate 4 16 ++
  List.replicate 8 17 ++ List.replicate 8 18 ++
  List.replicate 8 19 ++ List.replicate 8 20 ++
  List.replicate 16 21 ++ List.replicate 16 22 ++
  List.replicate 16 23 ++ List.replicate 16 24 ++
  List.replicate 32 25 ++ List.replicate 32 26 ++
  List.replicate 32 27 ++ List.replicate 31 28 ++ [29]

/-- `offsetCodes` table of `fast_deflate.h` (value-for-value; runs written
with `List.replicate`). -/
def offsetCodes : List Nat :=
  [0, 1, 2, 3] ++
  List.replicate 2 4 ++ List.replicate 2 5 ++
  List.replicate 4 6 ++ List.replicate 4 7 ++
  List.replicate 8 8 ++ List.replicate 8 9 ++
  List.replicate 16 10 ++ List.replicate 16 11 ++
  List.replicate 32 12 ++ List.replicate 32 13 ++
  List.replicate 64 14 ++ List.replicate 64 15

/-- `offsetCodes14` table of `fast_deflate.h` (used for offsets `≥ 256`);
its 256 entries are exactly `offsetCodes` shifted up by 14. -/
def offsetCodes14 : List Nat := offsetCodes.map (fun c => c + 14)

/-- `lengthExtraBits` table of `fast_deflate.cpp`. -/
def lengthExtraBits : List Nat :=
  List.replicate 8 0 ++
  (List.range 5).foldr (fun i acc => List.replicate 4 (i + 1) ++ acc) [] ++
  List.replicate 4 0

/-- `lengthBase` table of `fast_deflate.cpp`. -/
def lengthBase : List Nat :=
  [0, 1, 2, 3, 4, 5, 6, 7, 8, 10, 12, 14, 16, 20, 24, 28,
   32, 40, 48, 56, 64, 80, 96, 112, 128, 160, 192, 224, 255, 0, 0, 0]

/-- `offsetExtraBits` table of `fast_deflate.cpp`. -/
def offsetExtraBits : List Nat :=
  [0, 0] ++ (List.range 15).foldr (fun i acc => i :: i :: acc) []

/-- `offsetBase` table of `fast_deflate.cpp`. -/
def offsetBase : List Nat :=
  [0x000000, 0x000001, 0x000002, 0x000003, 0x000004,
   0x000006, 0x000008, 0x00000c, 0x000010, 0x000018,
   0x000020, 0x000030, 0x000040, 0x000060, 0x000080,
   0x0000c0, 0x000100, 0x000180, 0x000200, 0x000300,
   0x000400, 0x000600, 0x000800, 0x000c00, 0x001000,
   0x001800, 0x002000, 0x003000, 0x004000, 0x006000,
   0x008000, 0x00c000]

/-- `offsetCombined`, as initialised by the `StaticInit` constructor of
`fast_deflate.cpp`: extra-bit count in the low byte, offset base above. -/
def offsetCombined (i : Nat) : Nat :=
  if offsetExtraBits.getD i 0 = 0 ∨ offsetBase.getD i 0 > 0x006000 then 0
  else offsetExtraBits.getD i 0 ||| (offsetBase.getD i 0 <<< 8)

/-- `codegenOrder` table (RFC 1951 code-length-alphabet order). -/
def codegenOrder : List Nat :=
  [16, 17, 18] ++ [0, 8, 7, 9] ++ [6, 10, 5, 11] ++ [4, 12, 3, 13] ++ [2, 14, 1, 15]

/-! Loads, hashes and the match-length scan. -/

/-- A byte of the history buffer at a possibly negative index (a negative
index is an out-of-bounds read in the C++, modelled as 0). -/
def byteAtI (data : List Nat) (i : Int) : Nat :=
  if i < 0 then 0 else data.getD i.toNat 0

/-- `load32`: 4 bytes little-endian. -/
def load32 (data : List Nat) (i : Int) : Nat :=
  byteAtI data i + (byteAtI data (i+1)) <<< 8 + (byteAtI data (i+2)) <<< 16 +
  (byteAtI data (i+3)) <<< 24

/-- `load64`: 8 bytes little-endian. -/
def load64 (data : List Nat) (i : Int) : Nat :=
  byteAtI data i + (byteAtI data (i+1)) <<< 8 + (byteAtI data (i+2)) <<< 16 +
  (byteAtI data (i+3)) <<< 24 + (byteAtI data (i+4)) <<< 32 +
  (byteAtI data (i+5)) <<< 40 + (byteAtI data (i+6)) <<< 48 +
  (byteAtI data (i+7)) <<< 56

/-- Truncation to `uint32` (`static_cast<uint32_t>`). -/
def low32 (x : Nat) : Nat := x % 4294967296

/-- `hash4` (uint32 arithmetic). -/
def hash4 (u : Nat) : Nat := (low32 u * PRIME_4_BYTES) % 4294967296 >>> TABLE_SHIFT

/-- `hash5` (uint64 arithmetic): `((u << 24) * PRIME_5_BYTES) >> 49`. -/
def hash5 (u : Nat) : Nat :=
  ((u <<< 24) % 18446744073709551616 * PRIME_5_BYTES) % 18446744073709551616 >>> 49

/-- `hash7` (uint64 arithmetic): `((u << 8) * PRIME_7_BYTES) >> 49`. -/
def hash7 (u : Nat) : Nat :=
  ((u <<< 8) % 18446744073709551616 * PRIME_7_BYTES) % 18446744073709551616 >>> 49

/-- `offsetCode`. -/
def offsetCode (off : Nat) : Nat :=
  if off < 256 then offsetCodes.getD off 0
  else offsetCodes14.getD ((off >>> 7) &&& 0xFF) 0

/-- `reverseBits`: reverse the low `bitLength` bits of `number`. -/
def reverseBits (number : Nat) : Nat → Nat :=
  go number 0
where
  go (n result : Nat) : Nat → Nat
    | 0 => result
    | k + 1 => go (n >>> 1) ((result <<< 1) ||| (n &&& 1)) k

/-- `matchLen data i j maxLen`: length of the longest common prefix of
`data[i..]` and `data[j..]`, capped at `maxLen` (the semantics of the
8-byte-XOR / trailing-zero-count loop of `fast_deflate.cpp`). -/
def matchLen (data : List Nat) (i j : Int) : Nat → Nat
  | 0 => 0
  | maxLen + 1 =>
      if byteAtI data i = byteAtI data j then matchLen data (i+1) (j+1) maxLen + 1
      else 0

theorem matchLen_le (data : List Nat) (i j : Int) (maxLen : Nat) :
    matchLen data i j maxLen ≤ maxLen := by
  induction maxLen generalizing i j with
  | zero => simp [matchLen]
  | succ k ih =>
      unfold matchLen
      by_cases h : byteAtI data i = byteAtI data j
      · rw [if_pos h]
        exact Nat.succ_le_succ (ih _ _)
      · rw [if_neg h]
        exact Nat.zero_le _

/-! ## Tokens (`fast_deflate.h`)

The token buffer is a fixed array plus a count `n`; entries above `n` keep
whatever value they last had (`Tokens::reset` does not clear the array), so
the array is a total function `Nat → Nat` of packed `uint32` token values. -/

/-- Pointwise array update. -/
def updf (f : Nat → Nat) (i v : Nat) : Nat → Nat := fun j => if j = i then v else f j

structure Tokens where
  toks : Nat → Nat
  n : Nat
  litHist : Nat → Nat
  extraHist : Nat → Nat
  offHist : Nat → Nat

/-- `Tokens::reset`: zero the count and histograms; the token array is left
as it is. -/
def Tokens.reset (t : Tokens) : Tokens :=
  { t with n := 0, litHist := fun _ => 0, extraHist := fun _ => 0, offHist := fun _ => 0 }

/-- `Tokens::addLiteral`. -/
def Tokens.addLiteral (t : Tokens) (lit : Nat) : Tokens :=
  { t with toks := updf t.toks t.n lit
           litHist := updf t.litHist lit (t.litHist lit + 1)
           n := t.n + 1 }

/-- `Tokens::addEOB`. -/
def Tokens.addEOB (t : Tokens) : Tokens :=
  { t with toks := updf t.toks t.n END_BLOCK_MARKER, n := t.n + 1 }

/-- The chunk lengths into which `Tokens::addMatchLong` splits a match of
(positive) length `len`: chunks of 258, or 255 followed by a remainder of at
least 4, the final chunk carrying the remaining length. -/
def addMatchLongChunksGo : Nat → Nat → List Nat
  | 0, _ => []
  | _, 0 => []
  | fuel + 1, n + 1 =>
      if n + 1 > 261 then 258 :: addMatchLongChunksGo fuel (n + 1 - 258)
      else if n + 1 > 258 then 255 :: addMatchLongChunksGo fuel (n + 1 - 255)
      else [n + 1]

def addMatchLongChunks (len : Nat) : List Nat := addMatchLongChunksGo len len

theorem addMatchLongChunksGo_bounds (fuel : Nat) :
    ∀ len, 3 ≤ len → ∀ c ∈ addMatchLongChunksGo fuel len, 3 ≤ c ∧ c ≤ 258 := by
  induction fuel with
  | zero =>
      intro len _ c hc
      simp [addMatchLongChunksGo] at hc
  | succ f ih =>
      intro len h3 c hc
      match len, h3 with
      | n + 3, _ =>
          have hstep : addMatchLongChunksGo (f + 1) (n + 3) =
              (if n + 3 > 261 then 258 :: addMatchLongChunksGo f (n + 3 - 258)
               else if n + 3 > 258 then 255 :: addMatchLongChunksGo f (n + 3 - 255)
               else [n + 3]) := rfl
          rw [hstep] at hc
          by_cases h1 : n + 3 > 261
          · rw [if_pos h1] at hc
            rcases List.mem_cons.mp hc with rfl | hmem
            · omega
            · exact ih (n + 3 - 258) (by omega) c hmem
          · rw [if_neg h1] at hc
            by_cases h2 : n + 3 > 258
            · rw [if_pos h2] at hc
              rcases List.mem_cons.mp hc with rfl | hmem
              · omega
              · exact ih (n + 3 - 255) (by omega) c hmem
            · rw [if_neg h2] at hc
              rcases List.mem_singleton.mp hc with rfl
              omega

theorem addMatchLongChunks_bounds (len : Nat) (h3 : 3 ≤ len) :
    ∀ c ∈ addMatchLongChunks len, 3 ≤ c ∧ c ≤ 258 :=
  addMatchLongChunksGo_bounds len len h3

/-- The packed match token `MATCH_TYPE | (uint32(xl) << 22) | xoffset`
(`xl` already has `BASE_MATCH_LENGTH` subtracted, as a `uint32` value;
`xoffset` already carries the offset code in bits 16..21). -/
def matchTok (xlm3 xoff2 : Nat) : Nat :=
  MATCH_TYPE ||| ((xlm3 <<< LENGTH_SHIFT) % 4294967296) ||| xoff2

/-- One iteration body of the `addMatchLong` while-loop, applied to each
chunk: `xl` is the chunk length before the `-3`. -/
def Tokens.addMatchChunk (t : Tokens) (xl : Nat) (oc xoff2 : Nat) : Tokens :=
  let xlm3 := (((xl : Int) - 3).emod 4294967296).toNat
  { t with toks := updf t.toks t.n (matchTok xlm3 xoff2)
           extraHist := updf t.extraHist (lengthCodes1.getD (xlm3 % 256) 0)
             (t.extraHist (lengthCodes1.getD (xlm3 % 256) 0) + 1)
           offHist := updf t.offHist (oc &&& 31) (t.offHist (oc &&& 31) + 1)
           n := t.n + 1 }

def Tokens.addMatchChunkList (t : Tokens) (chunks : List Nat) (oc xoff2 : Nat) : Tokens :=
  chunks.foldl (fun acc xl => acc.addMatchChunk xl oc xoff2) t

/-- `Tokens::addMatchLong xlength xoffset`. -/
def Tokens.addMatchLong (t : Tokens) (xlength : Int) (xoffset : Nat) : Tokens :=
  let oc := offsetCode xoffset
  let xoff2 := xoffset ||| (oc <<< 16)
  t.addMatchChunkList (addMatchLongChunks xlength.toNat) oc xoff2

/-- The live token entries. -/
def Tokens.tokenList (t : Tokens) : List Nat := (List.range t.n).map t.toks

/-! ## HCode and HuffmanEncoder (`fast_deflate.h` / `fast_deflate.cpp`)

An `HCode` packs the code length in the low byte and the (bit-reversed)
code value above it, as the C++ `value = len | (code << 8)`.  An encoder's
code table is a total function symbol → `HCode` (entries the source never
writes stay at their previous value). -/

def hcSet (code len : Nat) : Nat := (len ||| (code <<< 8)) % 4294967296

def hcLen (h : Nat) : Nat := h % 256

def hcCode (h : Nat) : Nat := h >>> 8

/-- Stable insertion into a frequency-ascending list (models the
`std::sort` by `a.freq < b.freq`; ties keep symbol order, one valid
instantiation of the unspecified tie order - total bit cost is
tie-independent since tied symbols have equal frequencies). -/
def insertByFreq (x : Nat × Nat) : List (Nat × Nat) → List (Nat × Nat)
  | [] => [x]
  | y :: ys => if x.2 < y.2 then x :: y :: ys else y :: insertByFreq x ys

def sortByFreq : List (Nat × Nat) → List (Nat × Nat)
  | [] => []
  | x :: xs => insertByFreq x (sortByFreq xs)

def insertAsc (x : Nat) : List Nat → List Nat
  | [] => [x]
  | y :: ys => if x < y then x :: y :: ys else y :: insertAsc x ys

def sortAsc : List Nat → List Nat
  | [] => []
  | x :: xs => insertAsc x (sortAsc xs)

/-- The inner while-loop of `HuffmanEncoder::bitCounts`: starting from
`bits = 1, needed = 1`, increment while `bits < maxBits` and
`needed <= bitsRemaining / 2` (C++ `int` division). -/
def bcInnerStep (maxBits : Nat) (bitsRemaining : Int) : Nat → Nat → Int → Nat
  | 0, bits, _ => bits
  | fuel + 1, bits, needed =>
      if bits < maxBits ∧ needed ≤ Int.tdiv bitsRemaining 2 then
        bcInnerStep maxBits bitsRemaining fuel (bits + 1) (needed * 2)
      else bits

def bcInnerGo (maxBits : Nat) (bitsRemaining : Int) (bits : Nat) (needed : Int) : Nat :=
  bcInnerStep maxBits bitsRemaining maxBits bits needed

/-- The per-symbol loop of `HuffmanEncoder::bitCounts` (the body does not
depend on the loop index, only on `bitsRemaining`). -/
def bitCountsGo (maxBits : Nat) : Nat → Int → (Nat → Nat) → (Nat → Nat)
  | 0, _, bc => bc
  | k + 1, bitsRemaining, bc =>
      let bits := bcInnerGo maxBits bitsRemaining 1 1
      bitCountsGo maxBits k (bitsRemaining - ((1 <<< (maxBits - bits) : Nat) : Int))
        (updf bc bits (bc bits + 1))

/-- `HuffmanEncoder::bitCounts` for a list of `n` symbols. -/
def bitCounts (n maxBits0 : Nat) : Nat → Nat :=
  let maxBits := if maxBits0 > n - 1 then n - 1 else maxBits0
  bitCountsGo maxBits n ((2 : Int) ^ maxBits) (fun _ => 0)

/-- Assign one length-class of `HuffmanEncoder::assignEncodingAndSize`:
give consecutive (bit-reversed) codes to `symbols` at length `bits`. -/
def assignSymbols (bits : Nat) : List Nat → Nat → (Nat → Nat) → (Nat × (Nat → Nat))
  | [], code, codes => (code, codes)
  | sym :: rest, code, codes =>
      assignSymbols bits rest ((code + 1) % 65536)
        (updf codes sym (hcSet (reverseBits code bits) bits))

/-- The `for (bits = 1; bits <= 15 && listIdx >= 0; ++bits)` loop of
`assignEncodingAndSize`; `levels` counts the remaining levels
(`bits = 16 - levels`), `rem` is the frequency-ascending symbol list still
to be coded (popped from its end, highest frequencies first). -/
def assignLoop (bc : Nat → Nat) : Nat → Nat → List Nat → (Nat → Nat) → (Nat → Nat)
  | 0, _, _, codes => codes
  | levels + 1, code, rem, codes =>
      if rem.isEmpty then codes
      else
        let bits := 16 - (levels + 1)
        let code1 := (code <<< 1) % 65536
        let cnt := bc bits
        let grab := min cnt rem.length
        let symbols := sortAsc (rem.drop (rem.length - grab))
        let (code2, codes') := assignSymbols bits symbols code1 codes
        assignLoop bc levels code2 (rem.take (rem.length - grab)) codes'

/-- Assign `(code = i, len = 1)` to the i-th nonzero symbol (the
`count <= 2` shortcut of `generate`). -/
def assignTrivial : List (Nat × Nat) → (Nat → Nat) → (Nat → Nat)
  | [], codes => codes
  | (idx, sym) :: rest, codes => assignTrivial rest (updf codes sym (hcSet idx 1))

/-- `HuffmanEncoder::generate`: build the code table for symbols
`0..numSymbols-1` from `freq`, with maximum code length `maxBits`;
symbols with zero frequency get the zero code, entries outside the range
keep their previous value. -/
def generate (freq : Nat → Nat) (numSymbols maxBits : Nat) (codes : Nat → Nat) :
    Nat → Nat :=
  let syms := (List.range numSymbols).filter (fun i => freq i ≠ 0)
  let codes0 : Nat → Nat := fun i => if i < numSymbols ∧ freq i = 0 then 0 else codes i
  if syms.length ≤ 2 then assignTrivial syms.enum codes0
  else
    let sorted := sortByFreq (syms.map (fun s => (s, freq s)))
    let bc := bitCounts sorted.length maxBits
    assignLoop bc 15 0 (sorted.map Prod.fst) codes0

/-- `HuffmanEncoder::bitLength`. -/
def bitLength (codes : Nat → Nat) (freq : Nat → Nat) (numSymbols : Nat) : Nat :=
  ((List.range numSymbols).map
    (fun i => if freq i ≠ 0 then freq i * hcLen (codes i) else 0)).sum

/-- `createFixedLiteralEncoding` (RFC 1951 fixed literal/length codes). -/
def fixedLiteralEncoding : Nat → Nat := fun ch =>
  if ch < 144 then hcSet (reverseBits (ch + 48) 8) 8
  else if ch < 256 then hcSet (reverseBits (ch + 400 - 144) 9) 9
  else if ch < 280 then hcSet (reverseBits (ch - 256) 7) 7
  else if ch < 286 then hcSet (reverseBits (ch + 192 - 280) 8) 8
  else 0

/-- `createFixedOffsetEncoding` (RFC 1951 fixed distance codes). -/
def fixedOffsetEncoding : Nat → Nat := fun ch =>
  if ch < 30 then hcSet (reverseBits ch 5) 5 else 0

/-! ## HuffmanBitWriter (`fast_deflate.cpp`)

State: emitted output bytes, the 64-bit accumulator with its pending bit
count, the committed prefix of the byte staging buffer (`bytes_[0..nbytes_)`;
the 8-byte `store64` writes 6 committed bytes, the trailing 2 being
overwritten or dropped), and the `last header` bookkeeping plus the four
encoders' code tables. -/

structure BW where
  output : List Nat
  bits : Nat
  nbits : Nat
  bytesBuf : List Nat
  lastHeader : Nat
  lastHuffMan : Bool
  logNewTablePenalty : Nat
  literalEncoding : Nat → Nat
  offsetEncoding : Nat → Nat
  tmpLitEncoding : Nat → Nat
  codegenEncoding : Nat → Nat

/-- A freshly constructed `HuffmanBitWriter` (encoder tables zero-filled by
the `HuffmanEncoder` constructor, then `reset()`). -/
def BW.fresh : BW :=
  { output := [], bits := 0, nbits := 0, bytesBuf := [], lastHeader := 0,
    lastHuffMan := false, logNewTablePenalty := 7,
    literalEncoding := fun _ => 0, offsetEncoding := fun _ => 0,
    tmpLitEncoding := fun _ => 0, codegenEncoding := fun _ => 0 }

/-- `HuffmanBitWriter::reset`. -/
def BW.reset (w : BW) : BW :=
  { w with output := [], bits := 0, nbits := 0, bytesBuf := [],
           lastHeader := 0, lastHuffMan := false }

/-- `writeOutBits`: store 6 bytes of the accumulator little-endian into the
staging buffer, shifting the accumulator down by 48; flush the staging
buffer to the output when it reaches `BUFFER_FLUSH_SIZE`. -/
def BW.writeOutBits (w : BW) : BW :=
  let nb := w.bytesBuf ++ [w.bits % 256, (w.bits >>> 8) % 256, (w.bits >>> 16) % 256,
    (w.bits >>> 24) % 256, (w.bits >>> 32) % 256, (w.bits >>> 40) % 256]
  let bits := w.bits >>> 48
  let nbits := w.nbits - 48
  if BUFFER_FLUSH_SIZE ≤ nb.length then
    { w with output := w.output ++ nb, bytesBuf := [], bits := bits, nbits := nbits }
  else { w with bytesBuf := nb, bits := bits, nbits := nbits }

/-- `writeBits`. -/
def BW.writeBits (w : BW) (b nb : Nat) : BW :=
  let bits := (w.bits ||| (b <<< (w.nbits % 64))) % 18446744073709551616
  let nbits := w.nbits + nb
  let w' := { w with bits := bits, nbits := nbits }
  if 48 ≤ nbits then w'.writeOutBits else w'

/-- `writeCode`. -/
def BW.writeCode (w : BW) (c : Nat) : BW := w.writeBits (hcCode c) (hcLen c)

/-- The `flush` drain loop: emit `ceil(nbits/8)` bytes
(`nbits = (nbits > 8) ? nbits - 8 : 0`). -/
def drainBitsGo : Nat → Nat → Nat → List Nat
  | 0, _, _ => []
  | _, _, 0 => []
  | fuel + 1, bits, n + 1 =>
      (bits % 256) :: drainBitsGo fuel (bits >>> 8) (if n + 1 > 8 then n + 1 - 8 else 0)

def drainBits (bits nbits : Nat) : List Nat := drainBitsGo nbits bits nbits

/-- If `lastHeader_ > 0`, terminate the open Huffman-only block with its EOB
code (shared prologue of `flush`, `writeBytes`, `writeStoredHeader`,
`writeFixedHeader` and the block writers). -/
def BW.eobGuard (w : BW) : BW :=
  if 0 < w.lastHeader then
    { w.writeCode (w.literalEncoding END_BLOCK_MARKER) with lastHeader := 0 }
  else w

/-- `HuffmanBitWriter::flush`. -/
def BW.flush (w : BW) : BW :=
  let w := w.eobGuard
  { w with output := w.output ++ w.bytesBuf ++ drainBits w.bits w.nbits,
           bits := 0, nbits := 0, bytesBuf := [] }

/-- The `writeBytes` drain loop (`nbits_ -= 8` per byte; the bit count is a
multiple of 8 here because `writeBytes` only runs after a byte-aligning
`flush`): bytes plus the final accumulator value. -/
def drainAlignedGo : Nat → Nat → Nat → List Nat × Nat
  | 0, bits, _ => ([], bits)
  | _, bits, 0 => ([], bits)
  | fuel + 1, bits, n + 1 =>
      let (rest, final) := drainAlignedGo fuel (bits >>> 8) (n + 1 - 8)
      ((bits % 256) :: rest, final)

def drainAligned (bits nbits : Nat) : List Nat × Nat := drainAlignedGo nbits bits nbits

/-- `HuffmanBitWriter::writeBytes`. -/
def BW.writeBytes (w : BW) (bytes : List Nat) : BW :=
  let (drained, bits') := drainAligned w.bits w.nbits
  { w with output := w.output ++ w.bytesBuf ++ drained ++ bytes,
           bytesBuf := [], bits := bits', nbits := 0 }

/-- `writeFixedHeader`: BFINAL plus BTYPE=01, LSB first (`3` when final,
else `2`). -/
def BW.writeFixedHeader (w : BW) (isEof : Bool) : BW :=
  (w.eobGuard).writeBits (if isEof then 3 else 2) 3

/-- `writeStoredHeader`. -/
def BW.writeStoredHeader (w : BW) (length : Nat) (isEof : Bool) : BW :=
  let w := w.eobGuard
  if length = 0 ∧ isEof then ((w.writeFixedHeader isEof).writeBits 0 7).flush
  else
    (((w.writeBits (if isEof then 1 else 0) 3).flush).writeBits length 16).writeBits
      ((length % 65536) ^^^ 65535) 16

/-- One token of `writeTokens` (the inline accumulator manipulation of the
source is exactly the `writeBits`/`writeCode` sequence). -/
def writeTokenOp (leCodes oeCodes : Nat → Nat) (w : BW) (t : Nat) : BW :=
  if t < 256 then w.writeCode (leCodes t)
  else
    let length := (t >>> LENGTH_SHIFT) &&& 0xFF
    let lengthCode := lengthCodes1.getD length 0 - 1
    let w := w.writeCode (leCodes (LENGTH_CODES_START + lengthCode))
    let w := if 8 ≤ lengthCode then
        w.writeBits
          ((((length : Int) - (lengthBase.getD lengthCode 0 : Int)).emod
            18446744073709551616).toNat)
          (lengthExtraBits.getD lengthCode 0)
      else w
    let offset := t &&& OFFSET_MASK
    let offCode := (offset >>> 16) &&& 31
    let offset := offset &&& 0xFFFF
    let w := w.writeCode (oeCodes offCode)
    if 4 ≤ offCode then
      let offsetComb := offsetCombined offCode
      w.writeBits ((((offset : Int) - ((offsetComb >>> 8 : Nat) : Int)).emod
          4294967296).toNat &&& 0xFFFF)
        (offsetComb % 256)
    else w

/-- `HuffmanBitWriter::writeTokens` over the live token list. -/
def BW.writeTokenList (w : BW) (toks : List Nat) (leCodes oeCodes : Nat → Nat) : BW :=
  if toks.length = 0 then w
  else
    let deferEOB := toks.getLast? = some END_BLOCK_MARKER
    let body := if deferEOB then toks.dropLast else toks
    let w := body.foldl (writeTokenOp leCodes oeCodes) w
    if deferEOB then w.writeCode (leCodes END_BLOCK_MARKER) else w

/-- `indexTokens`: literal+length frequency array assembled from the token
histograms, with the EOB slot forced to 1 when tokens exist and
`alwaysEOB`. -/
def indexLitFreq (t : Tokens) (alwaysEOB : Bool) : Nat → Nat :=
  let base : Nat → Nat := fun i =>
    if i < 256 then t.litHist i else if i < 288 then t.extraHist (i - 256) else 0
  if t.n ≠ 0 ∧ alwaysEOB then updf base END_BLOCK_MARKER 1 else base

/-- `extraBitSize`. -/
def extraBitSize (litFreq offFreq : Nat → Nat) : Nat :=
  ((List.range (LITERAL_COUNT - 257)).map
    (fun i => litFreq (257 + i) * lengthExtraBits.getD (i &&& 31) 0)).sum +
  ((List.range OFFSET_CODE_COUNT).map
    (fun i => offFreq i * offsetExtraBits.getD (i &&& 31) 0)).sum

/-- `fixedSize`: 3 header bits plus the cost of the block under the fixed
encodings plus the extra bits. -/
def fixedSize (litFreq offFreq : Nat → Nat) (extraBits : Nat) : Nat :=
  3 + bitLength fixedLiteralEncoding litFreq LITERAL_COUNT +
  bitLength fixedOffsetEncoding offFreq OFFSET_CODE_COUNT + extraBits

/-- `storedSize` is `(len + 5) * 8` bits, storable iff the input fits one
stored block (the input pointer is never null at the modelled call sites). -/
def storableOf (len : Nat) : Bool := decide (len ≤ MAX_STORE_BLOCK_SIZE)

def storedSizeBits (len : Nat) : Nat := (len + 5) * 8

/-- `HuffmanBitWriter::writeBlockDynamic`.  Despite its name it emits either
the stored block or a fixed-Huffman block; the generated dynamic tables are
stored into the writer state but not used for emission. -/
def BW.writeBlockDynamic (w : BW) (t : Tokens) (eof : Bool) (input : List Nat) :
    BW × Tokens :=
  let t := t.addEOB
  let w := w.eobGuard
  let litFreq := indexLitFreq t true
  let offFreq := t.offHist
  let storable := storableOf input.length
  let ssize := storedSizeBits input.length
  let extraBits := if storable then extraBitSize litFreq offFreq else 0
  let w := { w with literalEncoding := generate litFreq LITERAL_COUNT 15 w.literalEncoding
                    offsetEncoding := generate offFreq OFFSET_CODE_COUNT 15 w.offsetEncoding }
  let size := fixedSize litFreq offFreq extraBits
  if storable ∧ ssize ≤ size then
    ((w.writeStoredHeader input.length eof).writeBytes input, t)
  else
    ((w.writeFixedHeader eof).writeTokenList t.tokenList
      fixedLiteralEncoding fixedOffsetEncoding, t)

/-- `histogram`: occurrence counts of each byte value. -/
def histF (input : List Nat) : Nat → Nat := fun s => input.count s

/-- `generateCodegen` for this source: the raw code-length sequence of the
literal and offset tables (no run-length encoding is performed). -/
def generateCodegenList (numLiterals numOffsets : Nat) (litEnc offEnc : Nat → Nat) :
    List Nat :=
  (List.range numLiterals).map (fun i => hcLen (litEnc i)) ++
  (List.range numOffsets).map (fun i => hcLen (offEnc i))

def cgFreqOf (cg : List Nat) : Nat → Nat := fun b => cg.count b

/-- `codegens` / the prefix of `headerSize`: drop trailing zero-frequency
code-length symbols in `codegenOrder`, down to at least 4. -/
def codegensGo (cgFreq : Nat → Nat) : Nat → Nat → Nat
  | 0, n => n
  | fuel + 1, n =>
      if 4 < n ∧ cgFreq (codegenOrder.getD (n - 1) 0) = 0 then
        codegensGo cgFreq fuel (n - 1)
      else n

def codegensCount (cgFreq : Nat → Nat) : Nat := codegensGo cgFreq 15 19

/-- `headerSize().first`. -/
def headerSizeBits (cgFreq cgEnc : Nat → Nat) (numCodegens : Nat) : Nat :=
  3 + 5 + 5 + 4 + 3 * numCodegens + bitLength cgEnc cgFreq 19 +
  cgFreq 16 * 2 + cgFreq 17 * 3 + cgFreq 18 * 7

/-- `writeDynamicHeader`. -/
def BW.writeDynamicHeader (w : BW) (numLiterals numOffsets numCodegens : Nat)
    (isEof : Bool) (cgEnc : Nat → Nat) (cg : List Nat) : BW :=
  let w := w.writeBits (if isEof then 5 else 4) 3
  let w := w.writeBits (numLiterals - 257) 5
  let w := w.writeBits (numOffsets - 1) 5
  let w := w.writeBits (numCodegens - 4) 4
  let w := (List.range numCodegens).foldl
    (fun w i => w.writeBits (hcLen (cgEnc (codegenOrder.getD i 0))) 3) w
  (cg.take (numLiterals + numOffsets)).foldl (fun w c => w.writeCode (cgEnc c)) w

/-- `HuffmanBitWriter::writeBlockHuff`.  The incompressibility detection
(lines 972-991 of the source) is floating-point arithmetic over the
histogram; it is abstracted as the boolean parameter `detect` - both of its
outcomes are modelled, the claims here do not depend on its value. -/
def BW.writeBlockHuff (detect : List Nat → Bool) (w : BW) (eof : Bool)
    (input : List Nat) (sync : Bool) : BW :=
  let litFreq0 := histF input
  let storable := storableOf input.length
  let ssize := storedSizeBits input.length
  if storable ∧ 1024 < input.length ∧ detect input then
    (w.writeStoredHeader input.length eof).writeBytes input
  else
    let litFreq := updf litFreq0 END_BLOCK_MARKER 1
    let tmpLit := generate litFreq (END_BLOCK_MARKER + 1) 15 w.tmpLitEncoding
    let w := { w with tmpLitEncoding := tmpLit }
    let est1 := bitLength tmpLit litFreq (END_BLOCK_MARKER + 1) + w.lastHeader +
      (if w.lastHeader = 0 then 70 * 8 else 0)
    let estBits := est1 + (est1 >>> w.logNewTablePenalty)
    if storable ∧ ssize ≤ estBits then
      (w.writeStoredHeader input.length eof).writeBytes input
    else
      let w : BW := if 0 < w.lastHeader ∧
          estBits < bitLength w.literalEncoding litFreq (END_BLOCK_MARKER + 1) then
          { w.writeCode (w.literalEncoding END_BLOCK_MARKER) with lastHeader := 0 }
        else w
      let w : BW := if w.lastHeader = 0 then
          let w := { w with literalEncoding := w.tmpLitEncoding
                            tmpLitEncoding := w.literalEncoding }
          let cg := generateCodegenList (END_BLOCK_MARKER + 1) 1
            w.literalEncoding fixedOffsetEncoding
          let cgFreq := cgFreqOf cg
          let cgEnc := generate cgFreq 19 7 w.codegenEncoding
          let w := { w with codegenEncoding := cgEnc }
          let numCodegens := codegensCount cgFreq
          let w := w.writeDynamicHeader (END_BLOCK_MARKER + 1) 1 numCodegens eof cgEnc cg
          { w with lastHuffMan := true,
                   lastHeader := headerSizeBits cgFreq cgEnc numCodegens }
        else w
      let w := input.foldl (fun w b => w.writeCode (w.literalEncoding b)) w
      if eof || sync then
        { w.writeCode (w.literalEncoding END_BLOCK_MARKER) with
          lastHeader := 0, lastHuffMan := false }
      else w

/-! ## FastGen and the L1 match-finder (`fast_deflate.cpp`)

The hash table holds `int32` absolute offsets (`position + cur_`); it is a
total function slot → value.  Positions are `Int` (they match the `int32`
arithmetic of the source; the rebase logic keeps every value far below
`2^31`, so no wrap-around is modelled). -/

/-- Pointwise update of an `Int`-valued table. -/
def updI (f : Nat → Int) (i : Nat) (v : Int) : Nat → Int :=
  fun j => if j = i then v else f j

/-- `FastGen::addBlock` acting on (history, cur): possibly slide the window
down to its last 32 KiB when the allocation would be exceeded, then append
the source block; returns the start position of the new block. -/
def addBlock (hist : List Nat) (cur : Int) (src : List Nat) :
    List Nat × Int × Int :=
  let (hist, cur) :=
    if ALLOC_HISTORY < hist.length + src.length then
      let offset : Int := (hist.length : Int) - MAX_MATCH_OFFSET
      if 0 < offset then (hist.drop (hist.length - 32768), cur + offset)
      else (hist, cur)
    else (hist, cur)
  (hist ++ src, cur, (hist.length : Int))

/-- `FastGen::reset` acting on (history, cur). -/
def fastGenReset (hist : List Nat) (cur : Int) : List Nat × Int :=
  ([], cur + MAX_MATCH_OFFSET + hist.length)

/-- Emit the literal run `data[i..i+k)` (the inlined literal loops of the
encoders). -/
def emitLiterals (data : List Nat) (t : Tokens) (i : Int) : Nat → Tokens
  | 0 => t
  | k + 1 => emitLiterals data (t.addLiteral (byteAtI data i)) (i + 1) k

/-- The `emitRemainder` tail of `FastEncL1::encode` / `FastEncL4::encode`
(note the `if (dst->n == 0) return;` quirk: a block that produced no tokens
at all stays empty, signalling the caller to store it raw). -/
def encEmitRemainder (data : List Nat) (t : Tokens) (nextEmit : Int) : Tokens :=
  if nextEmit < (data.length : Int) then
    if t.n = 0 then t
    else emitLiterals data t nextEmit ((data.length : Int) - nextEmit).toNat
  else t

/-- The backward extension `while (t > 0 && s > nextEmit &&
data[t-1] == data[s-1]) { s--; t--; l++; }`; the fuel is
`(s - nextEmit).toNat`, which encodes the `s > nextEmit` guard exactly. -/
def backExt (data : List Nat) : Nat → Int → Int → Int → Int × Int × Int
  | 0, s, tt, l => (s, tt, l)
  | k + 1, s, tt, l =>
      if 0 < tt ∧ byteAtI data (tt - 1) = byteAtI data (s - 1) then
        backExt data k (s - 1) (tt - 1) (l + 1)
      else (s, tt, l)

mutual

/-- The candidate-search loop of `FastEncL1::encode` (the inner
`while (true)`; `skipLog = 5`, `doEvery = 2`). -/
def l1Search (data : List Nat) (sLimit cur : Int) (fuel : Nat)
    (table : Nat → Int) (t : Tokens) (s nextEmit : Int) (cv : Nat) :
    (Nat → Int) × Tokens :=
  match fuel with
  | 0 => (table, t)
  | fuel + 1 =>
      let nextHash := hash5 cv
      let candidate := table nextHash
      let nextS := s + 2 + (s - nextEmit).tdiv 32
      if sLimit < nextS then (table, encEmitRemainder data t nextEmit)
      else
        let now := load64 data nextS
        let table := updI table nextHash (s + cur)
        let nextHash2 := hash5 now
        let tt := candidate - cur
        if s - tt < MAX_MATCH_OFFSET ∧ low32 cv = load32 data tt then
          let table := updI table nextHash2 (nextS + cur)
          l1MatchLoop data sLimit cur fuel table t s tt nextS nextEmit
        else
          let cv := now
          let s := nextS
          let nextS := nextS + 1
          let candidate := table nextHash2
          let now := cv >>> 8
          let table := updI table nextHash2 (s + cur)
          let tt := candidate - cur
          if s - tt < MAX_MATCH_OFFSET ∧ low32 cv = load32 data tt then
            let table := updI table (hash5 now) (nextS + cur)
            l1MatchLoop data sLimit cur fuel table t s tt nextS nextEmit
          else
            l1Search data sLimit cur fuel table t nextS nextEmit now

/-- The match-processing loop of `FastEncL1::encode` (the `for (;;)`
continuation loop). -/
def l1MatchLoop (data : List Nat) (sLimit cur : Int) (fuel : Nat)
    (table : Nat → Int) (t : Tokens) (s tt nextS nextEmit : Int) :
    (Nat → Int) × Tokens :=
  match fuel with
  | 0 => (table, t)
  | fuel + 1 =>
      let maxLen := min ((data.length : Int) - s - 4).toNat (MAX_MATCH_LENGTH - 4)
      let l : Int := matchLen data (s + 4) (tt + 4) maxLen + 4
      let (s, tt, l) := backExt data (s - nextEmit).toNat s tt l
      let t := emitLiterals data t nextEmit (s - nextEmit).toNat
      let t := t.addMatchLong l (((s - tt - 1).emod 4294967296).toNat)
      let s := s + l
      let nextEmit := s
      let s := if s ≤ nextS then nextS + 1 else s
      if sLimit ≤ s then
        let table :=
          if s + 8 < (data.length : Int) then
            updI table (hash5 (load64 data s)) (s + cur)
          else table
        (table, encEmitRemainder data t nextEmit)
      else
        let x := load64 data (s - 2)
        let o := cur + s - 2
        let table := updI table (hash5 x) o
        let x := x >>> 16
        let candidate := table (hash5 x)
        let table := updI table (hash5 x) (o + 2)
        let tt := candidate - cur
        if MAX_MATCH_OFFSET < s - tt ∨ low32 x ≠ load32 data tt then
          l1Search data sLimit cur fuel table t (s + 1) nextEmit (x >>> 8)
        else
          l1MatchLoop data sLimit cur fuel table t s tt nextS nextEmit

end

/-- Level-1 encoder state (`FastEncL1`). -/
structure L1State where
  table : Nat → Int
  hist : List Nat
  cur : Int

/-- A freshly constructed `FastEncL1` (`FastGen` constructor:
`cur_ = MAX_STORE_BLOCK_SIZE`, table zero-filled). -/
def L1State.fresh : L1State :=
  { table := fun _ => 0, hist := [], cur := (MAX_STORE_BLOCK_SIZE : Nat) }

/-- `FastEncL1::reset`. -/
def L1State.reset (st : L1State) : L1State :=
  let (hist, cur) := fastGenReset st.hist st.cur
  { table := fun _ => 0, hist := hist, cur := cur }

/-- The `bufferReset` rebase prologue shared by both encoders. -/
def bufferResetLimit : Int := 0x7FFFFFFF - (ALLOC_HISTORY : Int) - (MAX_STORE_BLOCK_SIZE : Int) - 1

def rebaseTable (table : Nat → Int) (minOff cur : Int) : Nat → Int :=
  fun i => if table i ≤ minOff then 0 else table i - cur + MAX_MATCH_OFFSET

/-- `FastEncL1::encode`. -/
def encodeL1 (st : L1State) (t : Tokens) (src : List Nat) : L1State × Tokens :=
  let st :=
    if bufferResetLimit ≤ st.cur then
      if st.hist.isEmpty then { st with table := fun _ => 0, cur := MAX_MATCH_OFFSET }
      else
        let minOff := st.cur + st.hist.length - MAX_MATCH_OFFSET
        { st with table := rebaseTable st.table minOff st.cur, cur := MAX_MATCH_OFFSET }
    else st
  let (hist, cur, s) := addBlock st.hist st.cur src
  let st := { st with hist := hist, cur := cur }
  if src.length < 13 then (st, { t with n := src.length % 65536 })
  else
    let data := hist
    let sLimit : Int := (hist.length : Int) - 11
    let cv := load64 data s
    let fuel := hist.length * 2 + 64
    let (table, t) := l1Search data sLimit cur fuel st.table t s s cv
    ({ st with table := table }, t)

/-! ## L4 match-finder (`FastEncL4::encode`). -/

/-- The every-third-position seeding loop after a match
(`for (i += 3; i < s - 1; i += 3)` with its unrolled first iteration). -/
def l4SeedGo (data : List Nat) (cur sMinus1 : Int) :
    Nat → Int → (Nat → Int) → (Nat → Int) → (Nat → Int) × (Nat → Int)
  | 0, _, table, bTable => (table, bTable)
  | fuel + 1, i, table, bTable =>
      if i < sMinus1 then
        let cv := load64 data i
        let bTable := updI bTable (hash7 cv) (i + cur)
        let bTable := updI bTable (hash7 (cv >>> 8)) (i + cur + 1)
        let table := updI table (hash4 (low32 (cv >>> 8))) (i + cur + 1)
        l4SeedGo data cur sMinus1 fuel (i + 3) table bTable
      else (table, bTable)

mutual

/-- The candidate-search loop of `FastEncL4::encode` (`skipLog = 6`,
`doEvery = 1`); two tables: 4-byte-keyed `table`, 7-byte-keyed `bTable`. -/
def l4Search (data : List Nat) (sLimit cur : Int) (fuel : Nat)
    (table bTable : Nat → Int) (t : Tokens) (nextS0 nextEmit : Int) (cv : Nat) :
    (Nat → Int) × (Nat → Int) × Tokens :=
  match fuel with
  | 0 => (table, bTable, t)
  | fuel + 1 =>
      let nextHashS := hash4 (low32 cv)
      let nextHashL := hash7 cv
      let s := nextS0
      let nextS := s + 1 + (s - nextEmit).tdiv 64
      if sLimit < nextS then (table, bTable, encEmitRemainder data t nextEmit)
      else
        let sCandidate := table nextHashS
        let lCandidate := bTable nextHashL
        let next := load64 data nextS
        let table := updI table nextHashS (s + cur)
        let bTable := updI bTable nextHashL (s + cur)
        let tt := lCandidate - cur
        if s - tt < MAX_MATCH_OFFSET ∧ low32 cv = load32 data tt then
          l4MatchStep data sLimit cur fuel table bTable t s tt nextS nextEmit
        else
          let tt := sCandidate - cur
          if s - tt < MAX_MATCH_OFFSET ∧ low32 cv = load32 data tt then
            let lCand2 := bTable (hash7 next)
            let lOff := lCand2 - cur
            let (s, tt) :=
              if nextS - lOff < MAX_MATCH_OFFSET ∧ load32 data lOff = low32 next then
                let max1 := min ((data.length : Int) - s - 4).toNat (MAX_MATCH_LENGTH - 4)
                let max2 := min ((data.length : Int) - nextS - 4).toNat
                  (MAX_MATCH_LENGTH - 4)
                let l1 := matchLen data (s + 4) (tt + 4) max1
                let l2 := matchLen data (nextS + 4) (nextS - lOff + 4) max2
                if l1 < l2 then (nextS, lCand2 - cur) else (s, tt)
              else (s, tt)
            l4MatchStep data sLimit cur fuel table bTable t s tt nextS nextEmit
          else
            l4Search data sLimit cur fuel table bTable t nextS nextEmit next

/-- The match-processing block of `FastEncL4::encode` (runs once per outer
iteration, then the outer loop re-enters the search with `nextS = s`). -/
def l4MatchStep (data : List Nat) (sLimit cur : Int) (fuel : Nat)
    (table bTable : Nat → Int) (t : Tokens) (s tt nextS nextEmit : Int) :
    (Nat → Int) × (Nat → Int) × Tokens :=
  match fuel with
  | 0 => (table, bTable, t)
  | fuel + 1 =>
      let maxLen := min ((data.length : Int) - s - 4).toNat (MAX_MATCH_LENGTH - 4)
      let l : Int := matchLen data (s + 4) (tt + 4) maxLen + 4
      let (s, tt, l) := backExt data (s - nextEmit).toNat s tt l
      let t := emitLiterals data t nextEmit (s - nextEmit).toNat
      let t := t.addMatchLong l (((s - tt - 1).emod 4294967296).toNat)
      let s := s + l
      let nextEmit := s
      let s := if s ≤ nextS then nextS + 1 else s
      if sLimit ≤ s then
        let (table, bTable) :=
          if s + 8 < (data.length : Int) then
            let cv := load64 data s
            (updI table (hash4 (low32 cv)) (s + cur),
             updI bTable (hash7 cv) (s + cur))
          else (table, bTable)
        (table, bTable, encEmitRemainder data t nextEmit)
      else
        let (table, bTable) :=
          l4SeedGo data cur (s - 1) (s - nextS).toNat nextS table bTable
        let x := load64 data (s - 1)
        let o := cur + s - 1
        let table := updI table (hash4 (low32 x)) o
        let bTable := updI bTable (hash7 x) o
        l4Search data sLimit cur fuel table bTable t s nextEmit (x >>> 8)

end

/-- Level-4 encoder state (`FastEncL4`). -/
structure L4State where
  table : Nat → Int
  bTable : Nat → Int
  hist : List Nat
  cur : Int

def L4State.fresh : L4State :=
  { table := fun _ => 0, bTable := fun _ => 0, hist := [],
    cur := (MAX_STORE_BLOCK_SIZE : Nat) }

/-- `FastEncL4::reset`. -/
def L4State.reset (st : L4State) : L4State :=
  let (hist, cur) := fastGenReset st.hist st.cur
  { table := fun _ => 0, bTable := fun _ => 0, hist := hist, cur := cur }

/-- `FastEncL4::encode`. -/
def encodeL4 (st : L4State) (t : Tokens) (src : List Nat) : L4State × Tokens :=
  let st :=
    if bufferResetLimit ≤ st.cur then
      if st.hist.isEmpty then
        { st with table := fun _ => 0, bTable := fun _ => 0, cur := MAX_MATCH_OFFSET }
      else
        let minOff := st.cur + st.hist.length - MAX_MATCH_OFFSET
        { st with table := rebaseTable st.table minOff st.cur
                  bTable := rebaseTable st.bTable minOff st.cur
                  cur := MAX_MATCH_OFFSET }
    else st
  let (hist, cur, s) := addBlock st.hist st.cur src
  let st := { st with hist := hist, cur := cur }
  if src.length < 13 then (st, { t with n := src.length % 65536 })
  else
    let data := hist
    let sLimit : Int := (hist.length : Int) - 11
    let cv := load64 data s
    let fuel := hist.length * 2 + 64
    let (table, bTable, t) := l4Search data sLimit cur fuel st.table st.bTable t s s cv
    ({ st with table := table, bTable := bTable }, t)

/-! ## FastDeflate and FlateWriter (`fast_deflate.cpp`)

The per-block mode decision shared by `FastDeflate::compress`,
`FlateWriter::storeFast` and `FlateWriter::close` (the same three-way
if-chain appears verbatim in all three). -/

/-- The three-way per-block decision: stored when no tokens were produced,
Huffman-only when less than 1/16 was removed, else the `writeBlockDynamic`
path; `eof`/`sync` as passed by each caller. -/
def deflateBlockWrite (detect : List Nat → Bool) (w : BW) (t : Tokens)
    (input : List Nat) (eof sync : Bool) : BW × Tokens :=
  if t.n = 0 then
    ((w.writeStoredHeader input.length eof).writeBytes input, t)
  else if input.length - (input.length >>> 4) < t.n then
    (w.writeBlockHuff detect eof input sync, t)
  else
    w.writeBlockDynamic t eof input

/-- The per-block loop of `FastDeflate::compress` at levels 1-3 (the level-1
encoder).  `stale` is whatever the token array holds on entry. -/
def compressL1Go (detect : List Nat → Bool) :
    Nat → L1State → BW → Tokens → List Nat → BW
  | 0, _, w, _, _ => w
  | fuel + 1, enc, w, t, rest =>
      let blockSize := min rest.length MAX_STORE_BLOCK_SIZE
      let block := rest.take blockSize
      let isLast := decide (rest.length ≤ MAX_STORE_BLOCK_SIZE)
      let t := t.reset
      let (enc, t) := encodeL1 enc t block
      let (w, t) := deflateBlockWrite detect w t block isLast isLast
      if rest.length ≤ MAX_STORE_BLOCK_SIZE then w
      else compressL1Go detect fuel enc w t (rest.drop blockSize)

/-- `FastDeflate::compress` on a freshly constructed level-1 `FastDeflate`
whose token array holds the arbitrary initial contents `stale` (the
constructor does not initialise it; `reset()` only zeroes the count and
histograms). -/
def fastDeflateCompressL1 (detect : List Nat → Bool) (stale : Nat → Nat)
    (input : List Nat) : List Nat :=
  let enc := L1State.fresh.reset
  let w := BW.fresh.reset
  let t : Tokens := (Tokens.mk stale 0 (fun _ => 0) (fun _ => 0) (fun _ => 0)).reset
  if input.length = 0 then ((w.writeStoredHeader 0 true).flush).output
  else (compressL1Go detect input.length enc w t input).flush.output

/-- `FlateWriter` state at levels 1-3 (64 KiB window buffer, level-1
match-finder).  `window` holds the `windowEnd_` buffered bytes. -/
structure FW where
  window : List Nat
  enc : L1State
  w : BW
  tokens : Tokens

/-- A fresh `FlateWriter` at compression level `lvl` (the constructor sets
the new-table penalty from the level). -/
def FW.fresh (stale : Nat → Nat) (lvl : Nat) : FW :=
  { window := []
    enc := L1State.fresh
    w := { BW.fresh with logNewTablePenalty := if lvl ≤ 3 then 8 else if 7 ≤ lvl then 6 else 7 }
    tokens := Tokens.mk stale 0 (fun _ => 0) (fun _ => 0) (fun _ => 0) }

/-- `FlateWriter::storeFast`. -/
def FW.storeFast (detect : List Nat → Bool) (fw : FW) : FW :=
  if fw.window.length = 0 then fw
  else if fw.window.length < 128 then
    if fw.window.length ≤ 32 then
      { fw with w := (fw.w.writeStoredHeader fw.window.length false).writeBytes fw.window
                tokens := fw.tokens.reset, window := [], enc := fw.enc.reset }
    else
      { fw with w := fw.w.writeBlockHuff detect false fw.window false
                tokens := fw.tokens.reset, window := [], enc := fw.enc.reset }
  else
    let (enc, t) := encodeL1 fw.enc fw.tokens fw.window
    let (w, t) := deflateBlockWrite detect fw.w t fw.window false false
    { window := [], enc := enc, w := w, tokens := t.reset }

/-- `FlateWriter::write`: fill the 64 KiB window, emitting a block via
`storeFast` whenever it is full (`fillBlock` copies
`min(size, window.size() - windowEnd_)` bytes per round). -/
def FW.writeGo (detect : List Nat → Bool) : Nat → FW → List Nat → FW
  | 0, fw, _ => fw
  | fuel + 1, fw, data =>
      if data.isEmpty then fw
      else
        let fw := if fw.window.length = MAX_STORE_BLOCK_SIZE then fw.storeFast detect else fw
        let n := min data.length (MAX_STORE_BLOCK_SIZE - fw.window.length)
        FW.writeGo detect fuel { fw with window := fw.window ++ data.take n } (data.drop n)

def FW.write (detect : List Nat → Bool) (fw : FW) (data : List Nat) : FW :=
  FW.writeGo detect data.length fw data

/-- `FlateWriter::close`. -/
def FW.close (detect : List Nat → Bool) (fw : FW) : FW :=
  let fw :=
    if 0 < fw.window.length then
      let (enc, t) := encodeL1 fw.enc fw.tokens fw.window
      let (w, t) := deflateBlockWrite detect fw.w t fw.window true true
      { fw with enc := enc, tokens := t, w := w }
    else { fw with w := fw.w.writeStoredHeader 0 true }
  { fw with w := fw.w.flush }

/-- C1: refuted on the code.  For inputs shorter than 13 bytes the encoder
sets `tokens.n = len` without writing any tokens, and `compress` then emits a
fixed-Huffman block of whatever the token array happened to contain: with a
zero-initialised token array, the distinct one-byte inputs `[0x61]` and
`[0x00]` produce *identical* compressed streams, so no inflate can restore
both - `inflate(deflate(B)) = B` fails. -/
theorem fastDeflate_small_input_collision :
    fastDeflateCompressL1 (fun _ => false) (fun _ => 0) [97] =
      fastDeflateCompressL1 (fun _ => false) (fun _ => 0) [0] ∧
    ([97] : List Nat) ≠ [0] ∧
    fastDeflateCompressL1 (fun _ => false) (fun _ => 0) [97] = [99, 0, 0] ∧
    fastDeflateCompressL1 (fun _ => false) (fun _ => 7) [97] = [99, 7, 0] := by
  refine ⟨by decide, by decide, by decide, by decide⟩

/-! ## Bit-stream stability of the first block bits (block-type analysis)

The three bits written by `writeFixedHeader` / the stored-block header land
at a fixed byte position of the output stream; the lemmas below show that
every later writer operation leaves the low three bits of that byte
unchanged, so the block type (`BTYPE`, bits 1-2 of the first block byte)
emitted by `writeBlockDynamic` can be read off the final stream. -/

/-- The bytes already fixed: emitted output plus the staging buffer. -/
def BW.committed (w : BW) : List Nat := w.output ++ w.bytesBuf

/-- The byte stream the writer would produce if flushed now. -/
def BW.streamBytes (w : BW) : List Nat :=
  BW.committed w ++ drainBits w.bits w.nbits

/-- The byte at stream position `L` has low three bits `b`: either it is
already committed, or it is still the bottom of the bit accumulator. -/
def FirstByteLow3 (L b : Nat) (w : BW) : Prop :=
  (L < (BW.committed w).length ∧ (BW.committed w).getD L 0 % 8 = b) ∨
  ((BW.committed w).length = L ∧ 3 ≤ w.nbits ∧ w.nbits < 48 ∧ w.bits % 8 = b)

theorem getD_append_self (l : List Nat) (a : Nat) (rest : List Nat) :
    (l ++ a :: rest).getD l.length 0 = a := by
  induction l with
  | nil => rfl
  | cons x t ih => simpa using ih

theorem or_shiftLeft_mod_pow (x y k n : Nat) (h : n ≤ k) :
    (x ||| y <<< k) % 2 ^ n = x % 2 ^ n := by
  apply Nat.eq_of_testBit_eq
  intro i
  rcases Nat.lt_or_ge i n with hi | hi
  · rw [Nat.testBit_mod_two_pow, Nat.testBit_mod_two_pow, Nat.testBit_or,
      Nat.testBit_shiftLeft]
    have hk : ¬ k ≤ i := by omega
    simp [hi, hk]
  · rw [Nat.testBit_mod_two_pow, Nat.testBit_mod_two_pow]
    simp [Nat.not_lt.mpr hi]

theorem bitsAcc_mod8 (bits x k : Nat) (hk : 3 ≤ k) :
    (bits ||| x <<< k) % 18446744073709551616 % 8 = bits % 8 := by
  have h1 : (bits ||| x <<< k) % 18446744073709551616 % 8 = (bits ||| x <<< k) % 8 :=
    Nat.mod_mod_of_dvd _ (by norm_num)
  have h2 := or_shiftLeft_mod_pow bits x k 3 hk
  norm_num at h2
  rw [h1, h2]

theorem committed_writeOutBits (w : BW) :
    BW.committed w.writeOutBits = BW.committed w ++
      [w.bits % 256, w.bits >>> 8 % 256, w.bits >>> 16 % 256,
       w.bits >>> 24 % 256, w.bits >>> 32 % 256, w.bits >>> 40 % 256] := by
  rw [BW.writeOutBits]
  split
  · simp [BW.committed]
  · simp [BW.committed]

theorem writeOutBits_lastHeader (w : BW) :
    (BW.writeOutBits w).lastHeader = w.lastHeader := by
  rw [BW.writeOutBits]
  split
  · rfl
  · rfl

theorem writeBits_lastHeader (w : BW) (x nb : Nat) :
    (w.writeBits x nb).lastHeader = w.lastHeader := by
  rw [BW.writeBits]
  split
  · exact writeOutBits_lastHeader _
  · rfl

/-- Committed bytes only grow, under any single `writeBits`. -/
theorem committed_writeBits_extend (w : BW) (x nb : Nat) :
    ∃ tail, BW.committed (w.writeBits x nb) = BW.committed w ++ tail := by
  rw [BW.writeBits]
  split
  · exact ⟨_, committed_writeOutBits _⟩
  · exact ⟨[], by simp [BW.committed]⟩

theorem fb3_committed_mono (L b : Nat) (w w' : BW) (tail : List Nat)
    (hc : BW.committed w' = BW.committed w ++ tail)
    (hl : L < (BW.committed w).length)
    (hv : (BW.committed w).getD L 0 % 8 = b) :
    FirstByteLow3 L b w' := by
  left
  rw [hc]
  constructor
  · rw [List.length_append]
    omega
  · rw [List.getD_append _ _ _ _ hl]
    exact hv

theorem fb3_writeBits (L b : Nat) (w : BW) (x nb : Nat) (hnb : nb ≤ 16)
    (h : FirstByteLow3 L b w) : FirstByteLow3 L b (w.writeBits x nb) := by
  rcases h with ⟨hl, hv⟩ | ⟨hlen, h3, h48, hb⟩
  · obtain ⟨tail, hc⟩ := committed_writeBits_extend w x nb
    exact fb3_committed_mono L b w _ tail hc hl hv
  · rw [BW.writeBits]
    have hmod : w.nbits % 64 = w.nbits := Nat.mod_eq_of_lt (by omega)
    have hbits :
        (w.bits ||| x <<< (w.nbits % 64)) % 18446744073709551616 % 8 = b := by
      rw [hmod, bitsAcc_mod8 w.bits x w.nbits h3]
      exact hb
    split
    · left
      have hcw : BW.committed { w with
          bits := (w.bits ||| x <<< (w.nbits % 64)) % 18446744073709551616,
          nbits := w.nbits + nb } = BW.committed w := rfl
      rw [committed_writeOutBits, hcw]
      refine ⟨by simp [List.length_append]; omega, ?_⟩
      rw [← hlen, getD_append_self,
        Nat.mod_mod_of_dvd _ (by norm_num : (8:Nat) ∣ 256)]
      exact hbits
    · right
      refine ⟨hlen, ?_, ?_, hbits⟩
      · show 3 ≤ w.nbits + nb
        omega
      · show w.nbits + nb < 48
        omega

theorem fb3_writeCode (L b : Nat) (w : BW) (c : Nat) (hc : hcLen c ≤ 16)
    (h : FirstByteLow3 L b w) : FirstByteLow3 L b (w.writeCode c) :=
  fb3_writeBits L b w (hcCode c) (hcLen c) hc h

theorem eobGuard_of_zero (w : BW) (h : w.lastHeader = 0) : w.eobGuard = w := by
  rw [BW.eobGuard, if_neg]
  omega

theorem drainBits_succ (bits m : Nat) :
    drainBits bits (m + 1) = bits % 256 ::
      drainBitsGo m (bits >>> 8) (if m + 1 > 8 then m + 1 - 8 else 0) := rfl

theorem fb3_flush (L b : Nat) (w : BW) (hLH : w.lastHeader = 0)
    (h : FirstByteLow3 L b w) : FirstByteLow3 L b w.flush := by
  rw [BW.flush, eobGuard_of_zero w hLH]
  rcases h with ⟨hl, hv⟩ | ⟨hlen, h3, _, hb⟩
  · refine fb3_committed_mono L b w _ (drainBits w.bits w.nbits) ?_ hl hv
    simp [BW.committed]
  · left
    obtain ⟨m, hm⟩ : ∃ m, w.nbits = m + 1 := ⟨w.nbits - 1, by omega⟩
    have hcomm : BW.committed { w with
        output := w.output ++ w.bytesBuf ++ drainBits w.bits w.nbits,
        bits := 0, nbits := 0, bytesBuf := ([] : List Nat) } =
        BW.committed w ++ drainBits w.bits w.nbits := by
      simp [BW.committed]
    rw [hcomm, hm, drainBits_succ]
    refine ⟨by rw [List.length_append]; simp; omega, ?_⟩
    rw [← hlen, getD_append_self,
      Nat.mod_mod_of_dvd _ (by norm_num : (8:Nat) ∣ 256)]
    exact hb

theorem drainAlignedGo_fst_succ (fuel bits n : Nat) :
    (drainAlignedGo (fuel + 1) bits (n + 1)).1 =
      bits % 256 :: (drainAlignedGo fuel (bits >>> 8) (n + 1 - 8)).1 := by
  rcases hp : drainAlignedGo fuel (bits >>> 8) (n + 1 - 8) with ⟨rest, final⟩
  have hp2 : drainAlignedGo fuel (bits >>> 8) (n - 7) = (rest, final) := by
    rw [show n - 7 = n + 1 - 8 by omega]
    exact hp
  simp [drainAlignedGo, hp, hp2]

theorem committed_writeBytes (w : BW) (bytes : List Nat) :
    BW.committed (w.writeBytes bytes) =
      BW.committed w ++ (drainAligned w.bits w.nbits).1 ++ bytes := by
  rcases hp : drainAligned w.bits w.nbits with ⟨drained, bits'⟩
  simp [BW.writeBytes, BW.committed, hp]

theorem fb3_writeBytes (L b : Nat) (w : BW) (bytes : List Nat)
    (h : FirstByteLow3 L b w) : FirstByteLow3 L b (w.writeBytes bytes) := by
  rcases h with ⟨hl, hv⟩ | ⟨hlen, h3, _, hb⟩
  · refine fb3_committed_mono L b w _
      ((drainAligned w.bits w.nbits).1 ++ bytes) ?_ hl hv
    rw [committed_writeBytes, List.append_assoc]
  · left
    rw [committed_writeBytes]
    obtain ⟨m, hm⟩ : ∃ m, w.nbits = m + 1 := ⟨w.nbits - 1, by omega⟩
    have hfst : (drainAligned w.bits w.nbits).1 =
        w.bits % 256 :: (drainAlignedGo m (w.bits >>> 8) (m + 1 - 8)).1 := by
      rw [hm]
      exact drainAlignedGo_fst_succ m w.bits m
    rw [hfst]
    refine ⟨by rw [List.append_assoc, List.length_append]; simp; omega, ?_⟩
    rw [List.append_assoc, ← hlen]
    rw [show (w.bits % 256 :: (drainAlignedGo m (w.bits >>> 8) (m + 1 - 8)).1) ++ bytes =
      w.bits % 256 :: ((drainAlignedGo m (w.bits >>> 8) (m + 1 - 8)).1 ++ bytes) from rfl]
    rw [getD_append_self,
      Nat.mod_mod_of_dvd _ (by norm_num : (8:Nat) ∣ 256)]
    exact hb

/-- Starting from a byte-aligned accumulator, `writeBits x 3` plants `x` as
the low three bits of the byte at the current stream position. -/
theorem fb3_init (w : BW) (x : Nat) (hx : x < 8) (h0 : w.bits = 0)
    (hn : w.nbits = 0) :
    FirstByteLow3 (BW.committed w).length x (w.writeBits x 3) := by
  rw [BW.writeBits]
  rw [if_neg (by omega : ¬ 48 ≤ w.nbits + 3)]
  right
  refine ⟨rfl, ?_, ?_, ?_⟩
  · show 3 ≤ w.nbits + 3
    omega
  · show w.nbits + 3 < 48
    omega
  · show (w.bits ||| x <<< (w.nbits % 64)) % 18446744073709551616 % 8 = x
    rw [h0, hn]
    have h1 : (0 ||| x <<< (0 % 64)) = x := by simp
    rw [h1, Nat.mod_mod_of_dvd _ (by norm_num : (8:Nat) ∣ 18446744073709551616)]
    exact Nat.mod_eq_of_lt hx

theorem getD_le_of_forall (l : List Nat) (m : Nat) (h : ∀ x ∈ l, x ≤ m) (i : Nat) :
    l.getD i 0 ≤ m := by
  induction l generalizing i with
  | nil => simp [List.getD]
  | cons a t ih =>
      cases i with
      | zero => simpa using h a (List.mem_cons_self a t)
      | succ j =>
          rw [List.getD_cons_succ]
          exact ih (fun x hx => h x (List.mem_cons_of_mem a hx)) j

theorem hcLen_hcSet (code len : Nat) (h : len < 256) : hcLen (hcSet code len) = len := by
  rw [hcLen, hcSet]
  rw [Nat.mod_mod_of_dvd _ (by norm_num : (256:Nat) ∣ 4294967296)]
  have h2 := or_shiftLeft_mod_pow len code 8 8 (le_refl 8)
  norm_num at h2
  rw [h2]
  exact Nat.mod_eq_of_lt h

theorem hcLen_fixedLiteral_le (ch : Nat) : hcLen (fixedLiteralEncoding ch) ≤ 16 := by
  simp only [fixedLiteralEncoding]
  split
  · rw [hcLen_hcSet _ _ (by norm_num)]
    norm_num
  · split
    · rw [hcLen_hcSet _ _ (by norm_num)]
      norm_num
    · split
      · rw [hcLen_hcSet _ _ (by norm_num)]
        norm_num
      · split
        · rw [hcLen_hcSet _ _ (by norm_num)]
          norm_num
        · norm_num [hcLen]

theorem hcLen_fixedOffset_le (ch : Nat) : hcLen (fixedOffsetEncoding ch) ≤ 16 := by
  simp only [fixedOffsetEncoding]
  split
  · rw [hcLen_hcSet _ _ (by norm_num)]
    norm_num
  · norm_num [hcLen]

theorem lengthExtraBits_getD_le (i : Nat) : lengthExtraBits.getD i 0 ≤ 16 :=
  getD_le_of_forall _ 16 (by decide) i

theorem offsetCombined_mod256_le (i : Nat) : offsetCombined i % 256 ≤ 16 := by
  rw [offsetCombined]
  split
  · norm_num
  · have h2 : (offsetExtraBits.getD i 0 ||| offsetBase.getD i 0 <<< 8) % 2 ^ 8 =
        offsetExtraBits.getD i 0 % 2 ^ 8 :=
      or_shiftLeft_mod_pow _ _ 8 8 (le_refl 8)
    have h256 : (2:Nat) ^ 8 = 256 := by norm_num
    rw [h256] at h2
    rw [h2]
    have hle : offsetExtraBits.getD i 0 ≤ 16 := getD_le_of_forall _ 16 (by decide) i
    omega

theorem fb3_writeBits_ite (L b : Nat) (w : BW) (c : Prop) [Decidable c]
    (x nb : Nat) (hnb : nb ≤ 16) (h : FirstByteLow3 L b w) :
    FirstByteLow3 L b (if c then w.writeBits x nb else w) := by
  split
  · exact fb3_writeBits L b w x nb hnb h
  · exact h

theorem fb3_writeTokenOp (L b : Nat) (w : BW) (t : Nat)
    (h : FirstByteLow3 L b w) :
    FirstByteLow3 L b (writeTokenOp fixedLiteralEncoding fixedOffsetEncoding w t) := by
  rw [writeTokenOp]
  split
  · exact fb3_writeCode L b w _ (hcLen_fixedLiteral_le _) h
  · refine fb3_writeBits_ite L b _ _ _ _ (offsetCombined_mod256_le _) ?_
    refine fb3_writeCode L b _ _ (hcLen_fixedOffset_le _) ?_
    refine fb3_writeBits_ite L b _ _ _ _ (lengthExtraBits_getD_le _) ?_
    exact fb3_writeCode L b _ _ (hcLen_fixedLiteral_le _) h

theorem fb3_foldlTokens (L b : Nat) (toks : List Nat) :
    ∀ w : BW, FirstByteLow3 L b w →
      FirstByteLow3 L b
        (toks.foldl (writeTokenOp fixedLiteralEncoding fixedOffsetEncoding) w) := by
  induction toks with
  | nil => intro w h; exact h
  | cons a rest ih =>
      intro w h
      rw [List.foldl_cons]
      exact ih _ (fb3_writeTokenOp L b w a h)

theorem fb3_writeTokenList (L b : Nat) (w : BW) (toks : List Nat)
    (h : FirstByteLow3 L b w) :
    FirstByteLow3 L b
      (w.writeTokenList toks fixedLiteralEncoding fixedOffsetEncoding) := by
  rw [BW.writeTokenList]
  split
  · exact h
  · by_cases hd : toks.getLast? = some (END_BLOCK_MARKER : Nat)
    · rw [if_pos hd, if_pos hd]
      exact fb3_writeCode L b _ _ (hcLen_fixedLiteral_le _)
        (fb3_foldlTokens L b _ _ h)
    · rw [if_neg hd, if_neg hd]
      exact fb3_foldlTokens L b _ _ h

theorem fb3_extract (L b : Nat) (w : BW) (h : FirstByteLow3 L b w) :
    (BW.streamBytes w).getD L 0 % 8 = b := by
  rcases h with ⟨hl, hv⟩ | ⟨hlen, h3, _, hb⟩
  · rw [BW.streamBytes, List.getD_append _ _ _ _ hl]
    exact hv
  · rw [BW.streamBytes]
    obtain ⟨m, hm⟩ : ∃ m, w.nbits = m + 1 := ⟨w.nbits - 1, by omega⟩
    rw [hm, drainBits_succ, ← hlen, getD_append_self,
      Nat.mod_mod_of_dvd _ (by norm_num : (8:Nat) ∣ 256)]
    exact hb

theorem btype_ne_two_extract (w' : BW) (L x : Nat) (hx : x < 4)
    (h : FirstByteLow3 L x w') :
    (BW.streamBytes w').getD L 0 / 2 % 4 ≠ 2 := by
  have hb := fb3_extract L x w' h
  omega

theorem storedBlock_btype (w : BW) (len : Nat) (eof : Bool) (bytes : List Nat)
    (h0 : w.bits = 0) (hn : w.nbits = 0) (hLH : w.lastHeader = 0) :
    (BW.streamBytes ((w.writeStoredHeader len eof).writeBytes bytes)).getD
      (BW.committed w).length 0 / 2 % 4 ≠ 2 := by
  rw [BW.writeStoredHeader, eobGuard_of_zero w hLH]
  split
  · rename_i hcond
    apply btype_ne_two_extract _ _ 3 (by norm_num)
    apply fb3_writeBytes
    apply fb3_flush
    · rw [writeBits_lastHeader, BW.writeFixedHeader, eobGuard_of_zero w hLH,
        writeBits_lastHeader]
      exact hLH
    · apply fb3_writeBits _ _ _ 0 7 (by norm_num)
      rw [BW.writeFixedHeader, eobGuard_of_zero w hLH, hcond.2, if_pos rfl]
      exact fb3_init w 3 (by norm_num) h0 hn
  · apply btype_ne_two_extract _ _ (if eof then 1 else 0) (by split <;> norm_num)
    apply fb3_writeBytes
    apply fb3_writeBits _ _ _ _ 16 (by norm_num)
    apply fb3_writeBits _ _ _ _ 16 (by norm_num)
    apply fb3_flush
    · rw [writeBits_lastHeader]
      exact hLH
    · exact fb3_init w _ (by split <;> norm_num) h0 hn

theorem fixedBlock_btype (w : BW) (eof : Bool) (toks : List Nat)
    (h0 : w.bits = 0) (hn : w.nbits = 0) (hLH : w.lastHeader = 0) :
    (BW.streamBytes ((w.writeFixedHeader eof).writeTokenList toks
        fixedLiteralEncoding fixedOffsetEncoding)).getD
      (BW.committed w).length 0 / 2 % 4 ≠ 2 := by
  apply btype_ne_two_extract _ _ (if eof then 3 else 2) (by split <;> norm_num)
  apply fb3_writeTokenList
  rw [BW.writeFixedHeader, eobGuard_of_zero w hLH]
  exact fb3_init w _ (by split <;> norm_num) h0 hn

/-! ## C2: the "dynamic" block path -/

/-- A well-formed token block: one literal plus one maximal match, as the L1
encoder would produce for 259 repeated bytes. -/
def c2Tokens : Tokens :=
  Tokens.addMatchLong
    (Tokens.addLiteral (Tokens.mk (fun _ => 0) 0 (fun _ => 0) (fun _ => 0) (fun _ => 0)) 97)
    258 0

def c2Input : List Nat := List.replicate 259 97

/-- C2: refuting counterexample.  `c2Tokens`/`c2Input` satisfy the dynamic
branch condition `0 < n ≤ blockSize - blockSize/16` and the stored form is
not smaller, yet `writeBlockDynamic` emits a block whose BTYPE field (bits
1-2 of the first output byte) is 1 (fixed Huffman), not 2 (dynamic): the
generated dynamic tables are never transmitted. -/
theorem writeBlockDynamic_emits_fixed_not_dynamic :
    0 < c2Tokens.n ∧
    c2Tokens.n ≤ c2Input.length - c2Input.length / 16 ∧
    ((BW.fresh.writeBlockDynamic c2Tokens false c2Input).1.flush).output.getD 0 0
      / 2 % 4 = 1 ∧
    (1 : Nat) ≠ 2 := by
  refine ⟨by decide, by decide, by decide, by decide⟩

/-- C2 (amended): `writeBlockDynamic` never emits a dynamic-Huffman block.
From any block-aligned writer state (empty bit accumulator, no open
Huffman-only block) and for every token block and input, the BTYPE field of
the block it writes - bits 1-2 of the first byte it appends to the stream -
is 0 (stored) or 1 (fixed Huffman), never 2 (dynamic). -/
theorem writeBlockDynamic_block_type_not_dynamic (w : BW) (t : Tokens)
    (eof : Bool) (input : List Nat) (h0 : w.bits = 0) (hn : w.nbits = 0)
    (hLH : w.lastHeader = 0) :
    (BW.streamBytes (w.writeBlockDynamic t eof input).1).getD
      (BW.committed w).length 0 / 2 % 4 ≠ 2 := by
  rw [BW.writeBlockDynamic, eobGuard_of_zero w hLH]
  by_cases hst : storableOf input.length = true
  · rw [if_pos hst]
    by_cases hc : storableOf input.length = true ∧
        storedSizeBits input.length ≤ fixedSize (indexLitFreq t.addEOB true)
          t.addEOB.offHist (extraBitSize (indexLitFreq t.addEOB true) t.addEOB.offHist)
    · rw [if_pos hc]
      exact storedBlock_btype _ input.length eof input
        (by exact h0) (by exact hn) (by exact hLH)
    · rw [if_neg hc]
      exact fixedBlock_btype _ eof _ (by exact h0) (by exact hn) (by exact hLH)
  · rw [if_neg hst]
    by_cases hc : storableOf input.length = true ∧
        storedSizeBits input.length ≤ fixedSize (indexLitFreq t.addEOB true)
          t.addEOB.offHist 0
    · rw [if_pos hc]
      exact storedBlock_btype _ input.length eof input
        (by exact h0) (by exact hn) (by exact hLH)
    · rw [if_neg hc]
      exact fixedBlock_btype _ eof _ (by exact h0) (by exact hn) (by exact hLH)

theorem writeBlockDynamic_block_type_not_dynamic_witness :
    (BW.streamBytes (BW.fresh.writeBlockDynamic c2Tokens false c2Input).1).getD
      (BW.committed BW.fresh).length 0 / 2 % 4 ≠ 2 :=
  writeBlockDynamic_block_type_not_dynamic BW.fresh c2Tokens false c2Input
    rfl rfl rfl

/-! ## C3: the per-block mode decision rule -/

/-- The three block encodings of the spec's decision rule. -/
inductive BlockMode where
  | stored
  | huffOnly
  | dynamic

/-- The spec's per-block decision rule, written from its words: stored when
no tokens, Huffman-only when `n > blockSize - blockSize/16`, else the
dynamic path. -/
def specChooseMode (n blockSize : Nat) : BlockMode :=
  if n = 0 then BlockMode.stored
  else if blockSize - blockSize / 16 < n then BlockMode.huffOnly
  else BlockMode.dynamic

theorem blockRule_dispatch (detect : List Nat → Bool) (w : BW) (t : Tokens)
    (input : List Nat) (eof sync : Bool) :
    deflateBlockWrite detect w t input eof sync =
      match specChooseMode t.n input.length with
      | BlockMode.stored => ((w.writeStoredHeader input.length eof).writeBytes input, t)
      | BlockMode.huffOnly => (w.writeBlockHuff detect eof input sync, t)
      | BlockMode.dynamic => w.writeBlockDynamic t eof input := by
  rw [deflateBlockWrite, specChooseMode]
  have hdiv : input.length >>> 4 = input.length / 16 := by
    rw [Nat.shiftRight_eq_div_pow]
  by_cases h1 : t.n = 0
  · rw [if_pos h1, if_pos h1]
  · rw [if_neg h1, if_neg h1]
    by_cases h2 : input.length - input.length >>> 4 < t.n
    · rw [if_pos h2, if_pos (by rw [← hdiv]; exact h2)]
    · rw [if_neg h2, if_neg (by rw [← hdiv]; exact h2)]

theorem blockRule_dynamic_stored (w : BW) (t : Tokens) (eof : Bool)
    (input : List Nat)
    (hst : storableOf input.length = true)
    (hle : storedSizeBits input.length ≤ fixedSize (indexLitFreq t.addEOB true)
      t.addEOB.offHist (extraBitSize (indexLitFreq t.addEOB true) t.addEOB.offHist)) :
    (w.writeBlockDynamic t eof input).1 =
      (({ w.eobGuard with
          literalEncoding := generate (indexLitFreq t.addEOB true) LITERAL_COUNT 15
            w.eobGuard.literalEncoding,
          offsetEncoding := generate t.addEOB.offHist OFFSET_CODE_COUNT 15
            w.eobGuard.offsetEncoding }).writeStoredHeader input.length
        eof).writeBytes input := by
  rw [BW.writeBlockDynamic, if_pos hst, if_pos (And.intro hst hle)]

/-- The temporary literal table `writeBlockHuff` computes for its size
estimate. -/
def huffTmpLit (w : BW) (input : List Nat) : Nat → Nat :=
  generate (updf (histF input) END_BLOCK_MARKER 1) (END_BLOCK_MARKER + 1) 15
    w.tmpLitEncoding

theorem blockRule_huff_stored (detect : List Nat → Bool) (w : BW) (eof : Bool)
    (input : List Nat) (sync : Bool)
    (hst : storableOf input.length = true)
    (hle : storedSizeBits input.length ≤
      (bitLength (huffTmpLit w input)
        (updf (histF input) END_BLOCK_MARKER 1) (END_BLOCK_MARKER + 1) +
        w.lastHeader + (if w.lastHeader = 0 then 70 * 8 else 0)) +
      (bitLength (huffTmpLit w input)
        (updf (histF input) END_BLOCK_MARKER 1) (END_BLOCK_MARKER + 1) +
        w.lastHeader + (if w.lastHeader = 0 then 70 * 8 else 0)) >>>
        w.logNewTablePenalty) :
    BW.writeBlockHuff detect w eof input sync =
      ((if storableOf input.length = true ∧ 1024 < input.length ∧
            detect input = true
        then w
        else { w with tmpLitEncoding := huffTmpLit w input }).writeStoredHeader
        input.length
        eof).writeBytes input := by
  rw [BW.writeBlockHuff]
  by_cases hd : storableOf input.length = true ∧ 1024 < input.length ∧
      detect input = true
  · rw [if_pos hd, if_pos hd]
  · rw [if_neg hd, if_neg hd]
    dsimp only
    rw [huffTmpLit] at hle
    rw [if_pos (And.intro hst hle), huffTmpLit]

theorem blockRule_storeFast (detect : List Nat → Bool) (fw : FW)
    (h : 128 ≤ fw.window.length) :
    FW.storeFast detect fw =
      { window := [],
        enc := (encodeL1 fw.enc fw.tokens fw.window).1,
        w := (deflateBlockWrite detect fw.w (encodeL1 fw.enc fw.tokens fw.window).2
          fw.window false false).1,
        tokens := ((deflateBlockWrite detect fw.w
          (encodeL1 fw.enc fw.tokens fw.window).2 fw.window false false).2).reset } := by
  rcases h1 : encodeL1 fw.enc fw.tokens fw.window with ⟨enc1, t1⟩
  rw [FW.storeFast, if_neg (by omega), if_neg (by omega), h1]

theorem blockRule_close (detect : List Nat → Bool) (fw : FW)
    (h : 0 < fw.window.length) :
    FW.close detect fw =
      { window := fw.window,
        enc := (encodeL1 fw.enc fw.tokens fw.window).1,
        w := ((deflateBlockWrite detect fw.w (encodeL1 fw.enc fw.tokens fw.window).2
          fw.window true true).1).flush,
        tokens := (deflateBlockWrite detect fw.w
          (encodeL1 fw.enc fw.tokens fw.window).2 fw.window true true).2 } := by
  rcases h1 : encodeL1 fw.enc fw.tokens fw.window with ⟨enc1, t1⟩
  rw [FW.close, if_pos h, h1]

def c3Zero : Tokens := Tokens.mk (fun _ => 0) 0 (fun _ => 0) (fun _ => 0) (fun _ => 0)

def c3Lits : Tokens := (((c3Zero.addLiteral 97).addLiteral 98).addLiteral 99).addLiteral 100

def c3FW : FW :=
  { window := List.replicate 128 5, enc := L1State.fresh, w := BW.fresh, tokens := c3Zero }

def c3FWc : FW := { window := [1, 2, 3], enc := L1State.fresh, w := BW.fresh, tokens := c3Zero }

/-- C3: the per-block mode decision rule.  (1) The shared block writer of
`FastDeflate::compress` / `FlateWriter` selects exactly by the spec's rule:
stored when `tokens.n = 0`, Huffman-only when `n > blockSize - blockSize/16`,
else the dynamic path.  (2) On the dynamic path a stored block is emitted
whenever the stored size is at most the computed encoded size.  (3) On the
Huffman-only path a stored block is emitted whenever the stored size is at
most the estimated encoded size.  (4) `FlateWriter::storeFast` on a full
window (>= 128 bytes) and (5) `FlateWriter::close` on a non-empty window
both encode via that shared rule (with eof=false resp. eof=true). -/
theorem deflate_block_mode_rule :
    (∀ (detect : List Nat → Bool) (w : BW) (t : Tokens) (input : List Nat)
        (eof sync : Bool),
      deflateBlockWrite detect w t input eof sync =
        match specChooseMode t.n input.length with
        | BlockMode.stored => ((w.writeStoredHeader input.length eof).writeBytes input, t)
        | BlockMode.huffOnly => (w.writeBlockHuff detect eof input sync, t)
        | BlockMode.dynamic => w.writeBlockDynamic t eof input) ∧
    (∀ (w : BW) (t : Tokens) (eof : Bool) (input : List Nat),
      storableOf input.length = true →
      storedSizeBits input.length ≤ fixedSize (indexLitFreq t.addEOB true)
        t.addEOB.offHist (extraBitSize (indexLitFreq t.addEOB true) t.addEOB.offHist) →
      (w.writeBlockDynamic t eof input).1 =
        (({ w.eobGuard with
            literalEncoding := generate (indexLitFreq t.addEOB true) LITERAL_COUNT 15 w.eobGuard.literalEncoding,
            offsetEncoding := generate t.addEOB.offHist OFFSET_CODE_COUNT 15 w.eobGuard.offsetEncoding }).writeStoredHeader
          input.length eof).writeBytes input) ∧
    (∀ (detect : List Nat → Bool) (w : BW) (eof : Bool) (input : List Nat)
        (sync : Bool),
      storableOf input.length = true →
      storedSizeBits input.length ≤
        (bitLength (huffTmpLit w input) (updf (histF input) END_BLOCK_MARKER 1)
            (END_BLOCK_MARKER + 1) + w.lastHeader +
          (if w.lastHeader = 0 then 70 * 8 else 0)) +
        (bitLength (huffTmpLit w input) (updf (histF input) END_BLOCK_MARKER 1)
            (END_BLOCK_MARKER + 1) + w.lastHeader +
          (if w.lastHeader = 0 then 70 * 8 else 0)) >>> w.logNewTablePenalty →
      BW.writeBlockHuff detect w eof input sync =
        ((if storableOf input.length = true ∧ 1024 < input.length ∧
              detect input = true
          then w
          else { w with tmpLitEncoding := huffTmpLit w input }).writeStoredHeader
          input.length eof).writeBytes input) ∧
    (∀ (detect : List Nat → Bool) (fw : FW), 128 ≤ fw.window.length →
      FW.storeFast detect fw =
        { window := [],
          enc := (encodeL1 fw.enc fw.tokens fw.window).1,
          w := (deflateBlockWrite detect fw.w (encodeL1 fw.enc fw.tokens fw.window).2 fw.window false false).1,
          tokens := ((deflateBlockWrite detect fw.w (encodeL1 fw.enc fw.tokens fw.window).2 fw.window false false).2).reset }) ∧
    (∀ (detect : List Nat → Bool) (fw : FW), 0 < fw.window.length →
      FW.close detect fw =
        { window := fw.window,
          enc := (encodeL1 fw.enc fw.tokens fw.window).1,
          w := ((deflateBlockWrite detect fw.w (encodeL1 fw.enc fw.tokens fw.window).2 fw.window true true).1).flush,
          tokens := (deflateBlockWrite detect fw.w (encodeL1 fw.enc fw.tokens fw.window).2 fw.window true true).2 }) :=
  ⟨blockRule_dispatch, blockRule_dynamic_stored, blockRule_huff_stored,
   blockRule_storeFast, blockRule_close⟩

theorem deflate_block_mode_rule_witness :
    (deflateBlockWrite (fun _ => false) BW.fresh c3Zero [] false false =
      match specChooseMode c3Zero.n ([] : List Nat).length with
      | BlockMode.stored => ((BW.fresh.writeStoredHeader ([] : List Nat).length false).writeBytes [], c3Zero)
      | BlockMode.huffOnly => (BW.fresh.writeBlockHuff (fun _ => false) false [] false, c3Zero)
      | BlockMode.dynamic => BW.fresh.writeBlockDynamic c3Zero false []) ∧
    ((BW.fresh.writeBlockDynamic c3Lits false []).1 =
      (({ BW.fresh.eobGuard with
          literalEncoding := generate (indexLitFreq c3Lits.addEOB true) LITERAL_COUNT 15 BW.fresh.eobGuard.literalEncoding,
          offsetEncoding := generate c3Lits.addEOB.offHist OFFSET_CODE_COUNT 15 BW.fresh.eobGuard.offsetEncoding }).writeStoredHeader
        ([] : List Nat).length false).writeBytes []) ∧
    (BW.writeBlockHuff (fun _ => false) BW.fresh false [7] false =
      ((if storableOf ([7] : List Nat).length = true ∧ 1024 < ([7] : List Nat).length ∧
            (fun (_ : List Nat) => false) [7] = true
        then BW.fresh
        else { BW.fresh with tmpLitEncoding := huffTmpLit BW.fresh [7] }).writeStoredHeader
        ([7] : List Nat).length false).writeBytes [7]) ∧
    (FW.storeFast (fun _ => false) c3FW =
      { window := [],
        enc := (encodeL1 c3FW.enc c3FW.tokens c3FW.window).1,
        w := (deflateBlockWrite (fun _ => false) c3FW.w (encodeL1 c3FW.enc c3FW.tokens c3FW.window).2 c3FW.window false false).1,
        tokens := ((deflateBlockWrite (fun _ => false) c3FW.w (encodeL1 c3FW.enc c3FW.tokens c3FW.window).2 c3FW.window false false).2).reset }) ∧
    (FW.close (fun _ => false) c3FWc =
      { window := c3FWc.window,
        enc := (encodeL1 c3FWc.enc c3FWc.tokens c3FWc.window).1,
        w := ((deflateBlockWrite (fun _ => false) c3FWc.w (encodeL1 c3FWc.enc c3FWc.tokens c3FWc.window).2 c3FWc.window true true).1).flush,
        tokens := (deflateBlockWrite (fun _ => false) c3FWc.w (encodeL1 c3FWc.enc c3FWc.tokens c3FWc.window).2 c3FWc.window true true).2 }) :=
  ⟨deflate_block_mode_rule.1 (fun _ => false) BW.fresh c3Zero [] false false,
   deflate_block_mode_rule.2.1 BW.fresh c3Lits false [] (by decide) (by decide),
   deflate_block_mode_rule.2.2.1 (fun _ => false) BW.fresh false [7] false
     (by decide) (by decide),
   deflate_block_mode_rule.2.2.2.1 (fun _ => false) c3FW (by decide),
   deflate_block_mode_rule.2.2.2.2 (fun _ => false) c3FWc (by decide)⟩

/-! ## C8: canonical match tokens from the L1/L4 match-finders

`goodTok` says a token is either a literal byte or a canonical match token:
a chunk length in `{3..258}` and an offset in `{1..32768}` packed exactly as
`Tokens::addMatchLong` packs them.  The table invariant `TableBound` bounds
every absolute hash-table entry by the write position, which yields
`offset >= 1`; the sign-checked `MAX_MATCH_OFFSET` comparisons of the
searches yield `offset <= 32768`. -/

def goodTok (tok : Nat) : Prop :=
  tok < 256 ∨ ∃ len off, 3 ≤ len ∧ len ≤ 258 ∧ 1 ≤ off ∧ off ≤ 32768 ∧
    tok = matchTok (len - 3) ((off - 1) ||| offsetCode (off - 1) <<< 16)

def liveGood (t : Tokens) : Prop := ∀ j, j < t.n → goodTok (t.toks j)

def TableBound (table : Nat → Int) (bound : Int) : Prop := ∀ i, table i ≤ bound

theorem mmo_eq : MAX_MATCH_OFFSET = (32768 : Int) := by decide

theorem emod_eq_mod (a b : Int) : a.emod b = a % b := rfl

theorem TableBound_updI (table : Nat → Int) (B : Int) (i : Nat) (v : Int)
    (h : TableBound table B) (hv : v ≤ B) : TableBound (updI table i v) B := by
  intro j
  rw [updI]
  split
  · exact hv
  · exact h j

theorem TableBound_mono (table : Nat → Int) (B B' : Int) (hB : B ≤ B')
    (h : TableBound table B) : TableBound table B' := fun i => le_trans (h i) hB

theorem liveGood_addLiteral (t : Tokens) (lit : Nat) (hlit : lit < 256)
    (h : liveGood t) : liveGood (t.addLiteral lit) := by
  intro j hj
  show goodTok (updf t.toks t.n lit j)
  rw [updf]
  by_cases hje : j = t.n
  · rw [if_pos hje]
    exact Or.inl hlit
  · rw [if_neg hje]
    have hj' : j < t.n + 1 := hj
    exact h j (by omega)

theorem byteAtI_lt (data : List Nat) (hdata : ∀ b ∈ data, b < 256) (i : Int) :
    byteAtI data i < 256 := by
  rw [byteAtI]
  split
  · norm_num
  · have := getD_le_of_forall data 255 (fun x hx => by have := hdata x hx; omega) i.toNat
    omega

theorem liveGood_emitLiterals (data : List Nat) (hdata : ∀ b ∈ data, b < 256) :
    ∀ (k : Nat) (t : Tokens) (i : Int), liveGood t →
      liveGood (emitLiterals data t i k)
  | 0, _, _, h => h
  | k + 1, t, i, h =>
      liveGood_emitLiterals data hdata k (t.addLiteral (byteAtI data i)) (i + 1)
        (liveGood_addLiteral t _ (byteAtI_lt data hdata i) h)

theorem liveGood_encEmitRemainder (data : List Nat) (hdata : ∀ b ∈ data, b < 256)
    (t : Tokens) (nextEmit : Int) (h : liveGood t) :
    liveGood (encEmitRemainder data t nextEmit) := by
  rw [encEmitRemainder]
  split
  · split
    · exact h
    · exact liveGood_emitLiterals data hdata _ t nextEmit h
  · exact h

theorem liveGood_addMatchChunk (t : Tokens) (xl xoff : Nat)
    (h3 : 3 ≤ xl) (h258 : xl ≤ 258) (hoff : xoff ≤ 32767) (h : liveGood t) :
    liveGood (t.addMatchChunk xl (offsetCode xoff) (xoff ||| offsetCode xoff <<< 16)) := by
  intro j hj
  show goodTok (updf t.toks t.n
    (matchTok (((xl : Int) - 3).emod 4294967296).toNat
      (xoff ||| offsetCode xoff <<< 16)) j)
  rw [updf]
  by_cases hje : j = t.n
  · rw [if_pos hje]
    right
    refine ⟨xl, xoff + 1, h3, h258, by omega, by omega, ?_⟩
    have hint : (((xl : Int) - 3).emod 4294967296).toNat = xl - 3 := by
      rw [emod_eq_mod]
      omega
    rw [hint]
    norm_num
  · rw [if_neg hje]
    have hj' : j < t.n + 1 := hj
    exact h j (by omega)

theorem liveGood_addMatchChunkList (xoff : Nat) (hoff : xoff ≤ 32767) :
    ∀ (chunks : List Nat), (∀ c ∈ chunks, 3 ≤ c ∧ c ≤ 258) →
    ∀ t : Tokens, liveGood t →
      liveGood (t.addMatchChunkList chunks (offsetCode xoff)
        (xoff ||| offsetCode xoff <<< 16))
  | [], _, _, h => h
  | c :: rest, hc, t, h =>
      liveGood_addMatchChunkList xoff hoff rest
        (fun x hx => hc x (List.mem_cons_of_mem c hx))
        (t.addMatchChunk c (offsetCode xoff) (xoff ||| offsetCode xoff <<< 16))
        (liveGood_addMatchChunk t c xoff (hc c (List.mem_cons_self c rest)).1
          (hc c (List.mem_cons_self c rest)).2 hoff h)

theorem liveGood_addMatchLong (t : Tokens) (l : Int) (xoff : Nat)
    (h3 : 3 ≤ l) (hoff : xoff ≤ 32767) (h : liveGood t) :
    liveGood (t.addMatchLong l xoff) :=
  liveGood_addMatchChunkList xoff hoff (addMatchLongChunks l.toNat)
    (addMatchLongChunks_bounds l.toNat (by omega)) t h

theorem backExt_props (data : List Nat) :
    ∀ (k : Nat) (s tt l : Int),
      (backExt data k s tt l).1 - (backExt data k s tt l).2.1 = s - tt ∧
      (backExt data k s tt l).1 + (backExt data k s tt l).2.2 = s + l ∧
      l ≤ (backExt data k s tt l).2.2 ∧
      s - k ≤ (backExt data k s tt l).1 ∧ (backExt data k s tt l).1 ≤ s := by
  intro k
  induction k with
  | zero =>
      intro s tt l
      refine ⟨by simp [backExt], by simp [backExt], by simp [backExt],
        by simp [backExt], by simp [backExt]⟩
  | succ m ih =>
      intro s tt l
      rw [backExt]
      split
      · have h := ih (s - 1) (tt - 1) (l + 1)
        refine ⟨by omega, by omega, by omega, by omega, by omega⟩
      · refine ⟨by simp, by simp, by simp, by simp; omega, by simp⟩

theorem l1_good (data : List Nat) (hdata : ∀ b ∈ data, b < 256) (sLimit cur : Int) :
    ∀ fuel : Nat,
      (∀ (table : Nat → Int) (t : Tokens) (s nextEmit : Int) (cv : Nat),
        liveGood t → TableBound table (cur + s - 1) → nextEmit ≤ s →
        liveGood (l1Search data sLimit cur fuel table t s nextEmit cv).2) ∧
      (∀ (table : Nat → Int) (t : Tokens) (s tt nextS nextEmit : Int),
        liveGood t → TableBound table (cur + max s nextS) → nextEmit ≤ s →
        tt ≤ s - 1 → s - tt ≤ 32768 →
        liveGood (l1MatchLoop data sLimit cur fuel table t s tt nextS nextEmit).2) := by
  intro fuel
  induction fuel with
  | zero =>
      constructor
      · intro table t s nextEmit cv hg _ _
        exact hg
      · intro table t s tt nextS nextEmit hg _ _ _ _
        exact hg
  | succ f ih =>
      obtain ⟨ihS, ihM⟩ := ih
      constructor
      · intro table t s nextEmit cv hg hb hne
        have hd0 : 0 ≤ (s - nextEmit).tdiv 32 :=
          Int.tdiv_nonneg (by omega) (by norm_num)
        rw [l1Search]
        dsimp only
        split
        · exact liveGood_encEmitRemainder data hdata t nextEmit hg
        · rename_i hns
          split
          · rename_i hm1
            have hoff1 : s - (table (hash5 cv) - cur) < 32768 := by
              have := hm1.1
              rw [mmo_eq] at this
              exact this
            have htt1 : table (hash5 cv) ≤ cur + s - 1 := hb (hash5 cv)
            apply ihM _ _ _ _ _ _ hg _ hne (by omega) (by omega)
            have hmax : max s (s + 2 + (s - nextEmit).tdiv 32) =
                s + 2 + (s - nextEmit).tdiv 32 := max_eq_right (by omega)
            rw [hmax]
            apply TableBound_updI
            · apply TableBound_updI
              · exact TableBound_mono _ _ _ (by omega) hb
              · omega
            · omega
          · rename_i hm1
            split
            · rename_i hm2
              have hoff2 := hm2.1
              rw [mmo_eq] at hoff2
              have htt2 : updI table (hash5 cv) (s + cur)
                  (hash5 (load64 data (s + 2 + (s - nextEmit).tdiv 32))) ≤
                  cur + s := by
                have h1 := TableBound_updI table (cur + s) (hash5 cv) (s + cur)
                  (TableBound_mono _ _ _ (by omega) hb) (by omega)
                exact h1 _
              apply ihM _ _ _ _ _ _ hg _ (by omega) (by omega) (by omega)
              have hmax : max (s + 2 + (s - nextEmit).tdiv 32)
                  (s + 2 + (s - nextEmit).tdiv 32 + 1) =
                  s + 2 + (s - nextEmit).tdiv 32 + 1 := max_eq_right (by omega)
              rw [hmax]
              apply TableBound_updI
              · apply TableBound_updI
                · apply TableBound_updI
                  · exact TableBound_mono _ _ _ (by omega) hb
                  · omega
                · omega
              · omega
            · apply ihS _ _ _ _ _ hg _ (by omega)
              apply TableBound_updI
              · apply TableBound_updI
                · exact TableBound_mono _ _ _ (by omega) hb
                · omega
              · omega
      · intro table t s tt nextS nextEmit hg hb hne hts hoff
        rw [l1MatchLoop]
        rcases hbe : backExt data (s - nextEmit).toNat s tt
            (↑(matchLen data (s + 4) (tt + 4)
              (min ((data.length : Int) - s - 4).toNat (MAX_MATCH_LENGTH - 4))) + 4)
          with ⟨s1, tt1, l1⟩
        have hp := backExt_props data ((s - nextEmit).toNat) s tt
          (↑(matchLen data (s + 4) (tt + 4)
            (min ((data.length : Int) - s - 4).toNat (MAX_MATCH_LENGTH - 4))) + 4)
        rw [hbe] at hp
        dsimp only at hp
        obtain ⟨hdiff, hsum, hlle, hlow, hup⟩ := hp
        have hl4 : (4 : Int) ≤
            ↑(matchLen data (s + 4) (tt + 4)
              (min ((data.length : Int) - s - 4).toNat (MAX_MATCH_LENGTH - 4))) + 4 := by
          omega
        rw [hbe]
        dsimp only
        generalize hS3 : (if s1 + l1 ≤ nextS then nextS + 1 else s1 + l1) = S3
        have h3a : nextS + 1 ≤ S3 := by
          rw [← hS3]
          split <;> omega
        have h3b : s + 4 ≤ S3 := by
          rw [← hS3]
          split <;> omega
        have h3c : s1 + l1 ≤ S3 := by
          rw [← hS3]
          split <;> omega
        have hxoff : (((s1 - tt1 - 1).emod 4294967296)).toNat ≤ 32767 := by
          rw [emod_eq_mod]
          omega
        have hl1 : (3 : Int) ≤ l1 := by omega
        have hg2 : liveGood ((emitLiterals data t nextEmit
            (s1 - nextEmit).toNat).addMatchLong l1
              (((s1 - tt1 - 1).emod 4294967296)).toNat) :=
          liveGood_addMatchLong _ l1 _ hl1 hxoff
            (liveGood_emitLiterals data hdata _ t nextEmit hg)
        have hmaxle : max s nextS ≤ S3 - 1 :=
          max_le (by omega) (by omega)
        split
        · exact liveGood_encEmitRemainder data hdata _ _ hg2
        · rename_i hcont
          split
          · apply ihS _ _ _ _ _ hg2 _ (by omega)
            apply TableBound_updI
            · apply TableBound_updI
              · exact TableBound_mono _ _ _ (by omega) hb
              · omega
            · omega
          · rename_i hcand
            have hmmo : ¬ (32768 : Int) < S3 -
                (updI table (hash5 (load64 data (S3 - 2))) (cur + S3 - 2)
                  (hash5 (load64 data (S3 - 2) >>> 16)) - cur) := by
              intro hlt
              apply hcand
              rw [mmo_eq]
              exact Or.inl hlt
            have hcd : updI table (hash5 (load64 data (S3 - 2))) (cur + S3 - 2)
                (hash5 (load64 data (S3 - 2) >>> 16)) ≤ cur + S3 - 1 := by
              have hbb : TableBound (updI table
                  (hash5 (load64 data (S3 - 2))) (cur + S3 - 2)) (cur + S3 - 1) := by
                apply TableBound_updI
                · exact TableBound_mono _ _ _ (by omega) hb
                · omega
              exact hbb _
            apply ihM _ _ _ _ _ _ hg2 _ (by omega) (by omega) (by omega)
            have hmax : max S3 nextS = S3 := max_eq_left (by omega)
            rw [hmax]
            apply TableBound_updI
            · apply TableBound_updI
              · exact TableBound_mono _ _ _ (by omega) hb
              · omega
            · omega

theorem l4SeedGo_bound (data : List Nat) (cur sMinus1 : Int) :
    ∀ (fuel : Nat) (i : Int) (table bTable : Nat → Int),
      TableBound table (cur + sMinus1) → TableBound bTable (cur + sMinus1) →
      TableBound (l4SeedGo data cur sMinus1 fuel i table bTable).1 (cur + sMinus1) ∧
      TableBound (l4SeedGo data cur sMinus1 fuel i table bTable).2 (cur + sMinus1) := by
  intro fuel
  induction fuel with
  | zero =>
      intro i table bTable h1 h2
      exact ⟨h1, h2⟩
  | succ m ih =>
      intro i table bTable h1 h2
      rw [l4SeedGo]
      dsimp only
      split
      · rename_i hi
        apply ih
        · apply TableBound_updI _ _ _ _ h1 (by omega)
        · apply TableBound_updI
          · apply TableBound_updI _ _ _ _ h2 (by omega)
          · omega
      · exact ⟨h1, h2⟩

theorem l4_good (data : List Nat) (hdata : ∀ b ∈ data, b < 256) (sLimit cur : Int) :
    ∀ fuel : Nat,
      (∀ (table bTable : Nat → Int) (t : Tokens) (s nextEmit : Int) (cv : Nat),
        liveGood t → TableBound table (cur + s - 1) →
        TableBound bTable (cur + s - 1) → nextEmit ≤ s →
        liveGood (l4Search data sLimit cur fuel table bTable t s nextEmit cv).2.2) ∧
      (∀ (table bTable : Nat → Int) (t : Tokens) (s tt nextS nextEmit : Int),
        liveGood t → TableBound table (cur + max s nextS) →
        TableBound bTable (cur + max s nextS) → nextEmit ≤ s →
        tt ≤ s - 1 → s - tt ≤ 32768 →
        liveGood (l4MatchStep data sLimit cur fuel table bTable t s tt nextS nextEmit).2.2) := by
  intro fuel
  induction fuel with
  | zero =>
      constructor
      · intro table bTable t s nextEmit cv hg _ _ _
        exact hg
      · intro table bTable t s tt nextS nextEmit hg _ _ _ _ _
        exact hg
  | succ f ih =>
      obtain ⟨ihS, ihM⟩ := ih
      constructor
      · intro table bTable t s nextEmit cv hg hbT hbB hne
        have hd0 : 0 ≤ (s - nextEmit).tdiv 64 :=
          Int.tdiv_nonneg (by omega) (by norm_num)
        rw [l4Search]
        dsimp only
        split
        · exact liveGood_encEmitRemainder data hdata t nextEmit hg
        · rename_i hns
          split
          · rename_i hm1
            have hoff1 := hm1.1
            rw [mmo_eq] at hoff1
            have htt1 : bTable (hash7 cv) ≤ cur + s - 1 := hbB (hash7 cv)
            apply ihM _ _ _ _ _ _ _ hg _ _ hne (by omega) (by omega)
            · have hmax : max s (s + 1 + (s - nextEmit).tdiv 64) =
                  s + 1 + (s - nextEmit).tdiv 64 := max_eq_right (by omega)
              rw [hmax]
              apply TableBound_updI
              · exact TableBound_mono _ _ _ (by omega) hbT
              · omega
            · have hmax : max s (s + 1 + (s - nextEmit).tdiv 64) =
                  s + 1 + (s - nextEmit).tdiv 64 := max_eq_right (by omega)
              rw [hmax]
              apply TableBound_updI
              · exact TableBound_mono _ _ _ (by omega) hbB
              · omega
          · rename_i hm1
            split
            · rename_i hm2
              have hoff2 := hm2.1
              rw [mmo_eq] at hoff2
              have htt2 : table (hash4 (low32 cv)) ≤ cur + s - 1 := hbT (hash4 (low32 cv))
              have hlc2 : updI bTable (hash7 cv) (s + cur)
                  (hash7 (load64 data (s + 1 + (s - nextEmit).tdiv 64))) ≤ cur + s := by
                have h1 := TableBound_updI bTable (cur + s) (hash7 cv) (s + cur)
                  (TableBound_mono _ _ _ (by omega) hbB) (by omega)
                exact h1 _
              have hbT2 : TableBound (updI table (hash4 (low32 cv)) (s + cur))
                  (cur + (s + 1 + (s - nextEmit).tdiv 64)) := by
                apply TableBound_updI
                · exact TableBound_mono _ _ _ (by omega) hbT
                · omega
              have hbB2 : TableBound (updI bTable (hash7 cv) (s + cur))
                  (cur + (s + 1 + (s - nextEmit).tdiv 64)) := by
                apply TableBound_updI
                · exact TableBound_mono _ _ _ (by omega) hbB
                · omega
              split
              · rename_i hpeek
                have hoffp := hpeek.1
                rw [mmo_eq] at hoffp
                split
                · rename_i hl12
                  apply ihM _ _ _ _ _ _ _ hg _ _ (by omega) (by omega) (by omega)
                  · have hmax : max (s + 1 + (s - nextEmit).tdiv 64)
                        (s + 1 + (s - nextEmit).tdiv 64) =
                        s + 1 + (s - nextEmit).tdiv 64 := max_self _
                    rw [hmax]
                    exact hbT2
                  · have hmax : max (s + 1 + (s - nextEmit).tdiv 64)
                        (s + 1 + (s - nextEmit).tdiv 64) =
                        s + 1 + (s - nextEmit).tdiv 64 := max_self _
                    rw [hmax]
                    exact hbB2
                · apply ihM _ _ _ _ _ _ _ hg _ _ (by omega) (by omega) (by omega)
                  · have hmax : max s (s + 1 + (s - nextEmit).tdiv 64) =
                        s + 1 + (s - nextEmit).tdiv 64 := max_eq_right (by omega)
                    rw [hmax]
                    exact hbT2
                  · have hmax : max s (s + 1 + (s - nextEmit).tdiv 64) =
                        s + 1 + (s - nextEmit).tdiv 64 := max_eq_right (by omega)
                    rw [hmax]
                    exact hbB2
              · apply ihM _ _ _ _ _ _ _ hg _ _ (by omega) (by omega) (by omega)
                · have hmax : max s (s + 1 + (s - nextEmit).tdiv 64) =
                      s + 1 + (s - nextEmit).tdiv 64 := max_eq_right (by omega)
                  rw [hmax]
                  exact hbT2
                · have hmax : max s (s + 1 + (s - nextEmit).tdiv 64) =
                      s + 1 + (s - nextEmit).tdiv 64 := max_eq_right (by omega)
                  rw [hmax]
                  exact hbB2
            · apply ihS _ _ _ _ _ _ hg _ _ (by omega)
              · apply TableBound_updI
                · exact TableBound_mono _ _ _ (by omega) hbT
                · omega
              · apply TableBound_updI
                · exact TableBound_mono _ _ _ (by omega) hbB
                · omega
      · intro table bTable t s tt nextS nextEmit hg hbT hbB hne hts hoff
        rw [l4MatchStep]
        rcases hbe : backExt data (s - nextEmit).toNat s tt
            (↑(matchLen data (s + 4) (tt + 4)
              (min ((data.length : Int) - s - 4).toNat (MAX_MATCH_LENGTH - 4))) + 4)
          with ⟨s1, tt1, l1⟩
        have hp := backExt_props data ((s - nextEmit).toNat) s tt
          (↑(matchLen data (s + 4) (tt + 4)
            (min ((data.length : Int) - s - 4).toNat (MAX_MATCH_LENGTH - 4))) + 4)
        rw [hbe] at hp
        dsimp only at hp
        obtain ⟨hdiff, hsum, hlle, hlow, hup⟩ := hp
        have hl4 : (4 : Int) ≤
            ↑(matchLen data (s + 4) (tt + 4)
              (min ((data.length : Int) - s - 4).toNat (MAX_MATCH_LENGTH - 4))) + 4 := by
          omega
        rw [hbe]
        dsimp only
        generalize hS3 : (if s1 + l1 ≤ nextS then nextS + 1 else s1 + l1) = S3
        have h3a : nextS + 1 ≤ S3 := by
          rw [← hS3]
          split <;> omega
        have h3b : s + 4 ≤ S3 := by
          rw [← hS3]
          split <;> omega
        have h3c : s1 + l1 ≤ S3 := by
          rw [← hS3]
          split <;> omega
        have hxoff : (((s1 - tt1 - 1).emod 4294967296)).toNat ≤ 32767 := by
          rw [emod_eq_mod]
          omega
        have hl1 : (3 : Int) ≤ l1 := by omega
        have hg2 : liveGood ((emitLiterals data t nextEmit
            (s1 - nextEmit).toNat).addMatchLong l1
              (((s1 - tt1 - 1).emod 4294967296)).toNat) :=
          liveGood_addMatchLong _ l1 _ hl1 hxoff
            (liveGood_emitLiterals data hdata _ t nextEmit hg)
        have hmaxle : max s nextS ≤ S3 - 1 :=
          max_le (by omega) (by omega)
        split
        · split
          · exact liveGood_encEmitRemainder data hdata _ _ hg2
          · exact liveGood_encEmitRemainder data hdata _ _ hg2
        · rename_i hcont
          rcases hseed : l4SeedGo data cur (S3 - 1) (S3 - nextS).toNat nextS table bTable
            with ⟨tb2, bt2⟩
          have hsb := l4SeedGo_bound data cur (S3 - 1) ((S3 - nextS).toNat) nextS
            table bTable
            (TableBound_mono _ _ _ (by omega) hbT)
            (TableBound_mono _ _ _ (by omega) hbB)
          rw [hseed] at hsb
          dsimp only at hsb
          obtain ⟨hsb1, hsb2⟩ := hsb
          dsimp only
          apply ihS _ _ _ _ _ _ hg2 _ _ (by omega)
          · apply TableBound_updI
            · exact TableBound_mono _ _ _ (by omega) hsb1
            · omega
          · apply TableBound_updI
            · exact TableBound_mono _ _ _ (by omega) hsb2
            · omega

theorem rebase_bound (table : Nat → Int) (minOff cur : Int) (B : Int) (hB : 0 ≤ B)
    (h : TableBound table (cur + B)) :
    TableBound (rebaseTable table minOff cur) (MAX_MATCH_OFFSET + B) := by
  intro i
  rw [rebaseTable, mmo_eq]
  split
  · omega
  · have := h i
    omega

theorem addBlock_bound (hist : List Nat) (cur : Int) (src : List Nat)
    (table : Nat → Int) (hb : TableBound table (cur + hist.length - 1)) :
    TableBound table
      ((addBlock hist cur src).2.1 + (addBlock hist cur src).2.2 - 1) := by
  rw [addBlock]
  dsimp only
  split
  · split
    · rename_i hoffp
      dsimp only
      refine TableBound_mono _ _ _ ?_ hb
      rw [List.length_drop, mmo_eq] at *
      omega
    · dsimp only
      refine TableBound_mono _ _ _ (by omega) hb
  · dsimp only
    refine TableBound_mono _ _ _ (by omega) hb

theorem addBlock_bytes (hist : List Nat) (cur : Int) (src : List Nat)
    (hh : ∀ b ∈ hist, b < 256) (hs : ∀ b ∈ src, b < 256) :
    ∀ b ∈ (addBlock hist cur src).1, b < 256 := by
  rw [addBlock]
  dsimp only
  split
  · split
    · dsimp only
      intro b hb
      rcases List.mem_append.mp hb with h1 | h2
      · exact hh b (List.mem_of_mem_drop h1)
      · exact hs b h2
    · dsimp only
      intro b hb
      rcases List.mem_append.mp hb with h1 | h2
      · exact hh b h1
      · exact hs b h2
  · dsimp only
    intro b hb
    rcases List.mem_append.mp hb with h1 | h2
    · exact hh b h1
    · exact hs b h2

/-- C8: every token the L1 and L4 match-finders append is canonical: a
literal byte, or a match token packed by `Tokens::addMatchLong` from a chunk
length in `{3..258}` and an offset in `{1..32768}` (`goodTok`) - so no match
references data more than 32 768 bytes behind the current position.  The
hypotheses are the encoder-state invariant (hash-table entries bounded by
the current absolute position) and byte-valued input, both true of every
reachable state; inputs shorter than 13 bytes take the early-return path
that emits no tokens at all (see C1). -/
theorem encoder_match_tokens_canonical :
    (∀ (st : L1State) (t : Tokens) (src : List Nat),
      (∀ b ∈ st.hist, b < 256) → (∀ b ∈ src, b < 256) → 13 ≤ src.length →
      liveGood t → TableBound st.table (st.cur + st.hist.length - 1) →
      liveGood (encodeL1 st t src).2) ∧
    (∀ (st : L4State) (t : Tokens) (src : List Nat),
      (∀ b ∈ st.hist, b < 256) → (∀ b ∈ src, b < 256) → 13 ≤ src.length →
      liveGood t → TableBound st.table (st.cur + st.hist.length - 1) →
      TableBound st.bTable (st.cur + st.hist.length - 1) →
      liveGood (encodeL4 st t src).2) := by
  constructor
  · intro st t src hh hs h13 hg hb
    rw [encodeL1]
    dsimp only
    by_cases hbr : bufferResetLimit ≤ st.cur
    · rw [if_pos hbr]
      by_cases hemp : st.hist.isEmpty = true
      · rw [if_pos hemp]
        dsimp only
        have hhe : st.hist = [] := by
          cases hl : st.hist
          · rfl
          · rw [hl] at hemp
            simp at hemp
        rcases hab : addBlock st.hist MAX_MATCH_OFFSET src with ⟨hist1, cur1, spos⟩
        have hb2 := addBlock_bound st.hist MAX_MATCH_OFFSET src (fun _ => 0)
          (by intro i; rw [mmo_eq]; simp; omega)
        have hd2 := addBlock_bytes st.hist MAX_MATCH_OFFSET src hh hs
        rw [hab] at hb2 hd2
        dsimp only at hb2 hd2
        rw [if_neg (by omega)]
        rcases hls : l1Search hist1 ((hist1.length : Int) - 11) cur1
            (hist1.length * 2 + 64) (fun _ => 0) t spos spos (load64 hist1 spos)
          with ⟨tb, tk⟩
        have hres := (l1_good hist1 hd2 ((hist1.length : Int) - 11) cur1
          (hist1.length * 2 + 64)).1 (fun _ => 0) t spos spos (load64 hist1 spos)
          hg hb2 (le_refl spos)
        rw [hls] at hres
        exact hres
      · rw [if_neg hemp]
        dsimp only
        have hlen : 0 < st.hist.length := by
          cases hl : st.hist
          · rw [hl] at hemp
            simp at hemp
          · simp [hl]
        rcases hab : addBlock st.hist MAX_MATCH_OFFSET src with ⟨hist1, cur1, spos⟩
        have hreb := rebase_bound st.table (st.cur + st.hist.length - MAX_MATCH_OFFSET)
          st.cur (st.hist.length - 1) (by omega) (TableBound_mono _ _ _ (by omega) hb)
        have hb2 := addBlock_bound st.hist MAX_MATCH_OFFSET src
          (rebaseTable st.table (st.cur + st.hist.length - MAX_MATCH_OFFSET) st.cur)
          (TableBound_mono _ _ _ (by omega) hreb)
        have hd2 := addBlock_bytes st.hist MAX_MATCH_OFFSET src hh hs
        rw [hab] at hb2 hd2
        dsimp only at hb2 hd2
        rw [if_neg (by omega)]
        rcases hls : l1Search hist1 ((hist1.length : Int) - 11) cur1
            (hist1.length * 2 + 64)
            (rebaseTable st.table (st.cur + st.hist.length - MAX_MATCH_OFFSET) st.cur)
            t spos spos (load64 hist1 spos)
          with ⟨tb, tk⟩
        have hres := (l1_good hist1 hd2 ((hist1.length : Int) - 11) cur1
          (hist1.length * 2 + 64)).1
          (rebaseTable st.table (st.cur + st.hist.length - MAX_MATCH_OFFSET) st.cur)
          t spos spos (load64 hist1 spos) hg hb2 (le_refl spos)
        rw [hls] at hres
        exact hres
    · rw [if_neg hbr]
      rcases hab : addBlock st.hist st.cur src with ⟨hist1, cur1, spos⟩
      have hb2 := addBlock_bound st.hist st.cur src st.table hb
      have hd2 := addBlock_bytes st.hist st.cur src hh hs
      rw [hab] at hb2 hd2
      dsimp only at hb2 hd2
      rw [if_neg (by omega)]
      rcases hls : l1Search hist1 ((hist1.length : Int) - 11) cur1
          (hist1.length * 2 + 64) st.table t spos spos (load64 hist1 spos)
        with ⟨tb, tk⟩
      have hres := (l1_good hist1 hd2 ((hist1.length : Int) - 11) cur1
        (hist1.length * 2 + 64)).1 st.table t spos spos (load64 hist1 spos)
        hg hb2 (le_refl spos)
      rw [hls] at hres
      exact hres
  · intro st t src hh hs h13 hg hbT hbB
    rw [encodeL4]
    dsimp only
    by_cases hbr : bufferResetLimit ≤ st.cur
    · rw [if_pos hbr]
      by_cases hemp : st.hist.isEmpty = true
      · rw [if_pos hemp]
        dsimp only
        rcases hab : addBlock st.hist MAX_MATCH_OFFSET src with ⟨hist1, cur1, spos⟩
        have hb2 := addBlock_bound st.hist MAX_MATCH_OFFSET src (fun _ => 0)
          (by intro i; rw [mmo_eq]; simp; omega)
        have hd2 := addBlock_bytes st.hist MAX_MATCH_OFFSET src hh hs
        rw [hab] at hb2 hd2
        dsimp only at hb2 hd2
        rw [if_neg (by omega)]
        rcases hls : l4Search hist1 ((hist1.length : Int) - 11) cur1
            (hist1.length * 2 + 64) (fun _ => 0) (fun _ => 0) t spos spos
            (load64 hist1 spos)
          with ⟨tb, bt, tk⟩
        have hres := (l4_good hist1 hd2 ((hist1.length : Int) - 11) cur1
          (hist1.length * 2 + 64)).1 (fun _ => 0) (fun _ => 0) t spos spos
          (load64 hist1 spos) hg hb2 hb2 (le_refl spos)
        rw [hls] at hres
        exact hres
      · rw [if_neg hemp]
        dsimp only
        have hlen : 0 < st.hist.length := by
          cases hl : st.hist
          · rw [hl] at hemp
            simp at hemp
          · simp [hl]
        rcases hab : addBlock st.hist MAX_MATCH_OFFSET src with ⟨hist1, cur1, spos⟩
        have hrebT := rebase_bound st.table (st.cur + st.hist.length - MAX_MATCH_OFFSET)
          st.cur (st.hist.length - 1) (by omega) (TableBound_mono _ _ _ (by omega) hbT)
        have hrebB := rebase_bound st.bTable (st.cur + st.hist.length - MAX_MATCH_OFFSET)
          st.cur (st.hist.length - 1) (by omega) (TableBound_mono _ _ _ (by omega) hbB)
        have hb2T := addBlock_bound st.hist MAX_MATCH_OFFSET src
          (rebaseTable st.table (st.cur + st.hist.length - MAX_MATCH_OFFSET) st.cur)
          (TableBound_mono _ _ _ (by omega) hrebT)
        have hb2B := addBlock_bound st.hist MAX_MATCH_OFFSET src
          (rebaseTable st.bTable (st.cur + st.hist.length - MAX_MATCH_OFFSET) st.cur)
          (TableBound_mono _ _ _ (by omega) hrebB)
        have hd2 := addBlock_bytes st.hist MAX_MATCH_OFFSET src hh hs
        rw [hab] at hb2T hb2B hd2
        dsimp only at hb2T hb2B hd2
        rw [if_neg (by omega)]
        rcases hls : l4Search hist1 ((hist1.length : Int) - 11) cur1
            (hist1.length * 2 + 64)
            (rebaseTable st.table (st.cur + st.hist.length - MAX_MATCH_OFFSET) st.cur)
            (rebaseTable st.bTable (st.cur + st.hist.length - MAX_MATCH_OFFSET) st.cur)
            t spos spos (load64 hist1 spos)
          with ⟨tb, bt, tk⟩
        have hres := (l4_good hist1 hd2 ((hist1.length : Int) - 11) cur1
          (hist1.length * 2 + 64)).1
          (rebaseTable st.table (st.cur + st.hist.length - MAX_MATCH_OFFSET) st.cur)
          (rebaseTable st.bTable (st.cur + st.hist.length - MAX_MATCH_OFFSET) st.cur)
          t spos spos (load64 hist1 spos) hg hb2T hb2B (le_refl spos)
        rw [hls] at hres
        exact hres
    · rw [if_neg hbr]
      rcases hab : addBlock st.hist st.cur src with ⟨hist1, cur1, spos⟩
      have hb2T := addBlock_bound st.hist st.cur src st.table hbT
      have hb2B := addBlock_bound st.hist st.cur src st.bTable hbB
      have hd2 := addBlock_bytes st.hist st.cur src hh hs
      rw [hab] at hb2T hb2B hd2
      dsimp only at hb2T hb2B hd2
      rw [if_neg (by omega)]
      rcases hls : l4Search hist1 ((hist1.length : Int) - 11) cur1
          (hist1.length * 2 + 64) st.table st.bTable t spos spos (load64 hist1 spos)
        with ⟨tb, bt, tk⟩
      have hres := (l4_good hist1 hd2 ((hist1.length : Int) - 11) cur1
        (hist1.length * 2 + 64)).1 st.table st.bTable t spos spos (load64 hist1 spos)
        hg hb2T hb2B (le_refl spos)
      rw [hls] at hres
      exact hres

def c8T : Tokens := Tokens.mk (fun _ => 0) 0 (fun _ => 0) (fun _ => 0) (fun _ => 0)

def c8Src : List Nat := List.replicate 16 3

theorem encoder_match_tokens_canonical_witness :
    liveGood (encodeL1 L1State.fresh.reset c8T c8Src).2 ∧
    liveGood (encodeL4 L4State.fresh.reset c8T c8Src).2 :=
  ⟨encoder_match_tokens_canonical.1 L1State.fresh.reset c8T c8Src
    (by intro b hb; simp [L1State.reset, L1State.fresh, fastGenReset] at hb)
    (by decide) (by decide)
    (by intro j hj; simp [c8T] at hj)
    (by intro i
        simp [L1State.reset, L1State.fresh, fastGenReset]
        decide),
   encoder_match_tokens_canonical.2 L4State.fresh.reset c8T c8Src
    (by intro b hb; simp [L4State.reset, L4State.fresh, fastGenReset] at hb)
    (by decide) (by decide)
    (by intro j hj; simp [c8T] at hj)
    (by intro i
        simp [L4State.reset, L4State.fresh, fastGenReset]
        decide)
    (by intro i
        simp [L4State.reset, L4State.fresh, fastGenReset]
        decide)⟩

end Pzip
